import Mathlib

/-!
# Cached image provider (`provider/cache/cache.go`)

A shallow embedding of the Go package `cache`:

* `Provider.Get`, the cache-aside lookup;
* `KeyGeneratorFunc`, `NewSourceHashKeyGenerator`, `PrefixKeyGenerator`, the key
  derivation strategies.

Collaborators (key generator, cache, underlying provider) are Go interfaces with
arbitrary, possibly stateful implementations.  They are embedded as
state-passing functions over an abstract world `W`.  A Go `error` is an
`Option Err` (`none` is `nil`), a `*imageserver.Image` is an `Option Img`
(`none` is the nil pointer), a Go `string` is its sequence of bytes.
-/

namespace Cache

/-! ## Data model -/

/-- A byte, Go `byte`. -/
abbrev Byte := Fin 256

/-- A Go `string`: an immutable sequence of bytes. `+` is `++`. -/
abbrev GoString := List Byte

/-- Result of a Go function returning `(*imageserver.Image, error)`. -/
abbrev ImageResult (Img Err : Type) := Option Img × Option Err

/-- Interface `KeyGenerator`: `GetKey(source, parameters) string`. -/
structure KeyGenerator (W Src Par : Type) where
  /-- Method `GetKey`. -/
  GetKey : Src → Par → W → GoString × W

/-- Interface `imageserver_cache.Cache`: `Get(key, parameters) (*Image, error)` and
`Set(key, image, parameters) error`. -/
structure ImageCache (W Par Img Err : Type) where
  /-- Method `Get`. -/
  Get : GoString → Par → W → ImageResult Img Err × W
  /-- Method `Set`. -/
  Set : GoString → Option Img → Par → W → Option Err × W

/-- Interface `imageserver_provider.Provider`: `Get(source, parameters) (*Image, error)`. -/
structure ImageProvider (W Src Par Img Err : Type) where
  /-- Method `Get`. -/
  Get : Src → Par → W → ImageResult Img Err × W

/-- Struct `Provider`: an image provider with a cache. The embedded field
`imageserver_provider.Provider` (Go field name `Provider`) is called `Inner` here,
since a field cannot carry the name of its structure. -/
structure Provider (W Src Par Img Err : Type) where
  /-- Embedded underlying provider. -/
  Inner : ImageProvider W Src Par Img Err
  /-- Field `Cache`. -/
  Cache : ImageCache W Par Img Err
  /-- Field `KeyGenerator`. -/
  KeyGenerator : KeyGenerator W Src Par

/-! ## `Provider.Get` -/

/-- Method `(provider *Provider) Get(source, parameters)`. -/
def Provider.Get {W Src Par Img Err : Type} (provider : Provider W Src Par Img Err)
    (source : Src) (parameters : Par) (w : W) : ImageResult Img Err × W :=
  -- cacheKey := provider.KeyGenerator.GetKey(source, parameters)
  let (cacheKey, w) := provider.KeyGenerator.GetKey source parameters w
  -- image, err := provider.Cache.Get(cacheKey, parameters)
  let ((image, err), w) := provider.Cache.Get cacheKey parameters w
  match err with
  | none => ((image, none), w)
  | some _ =>
    -- image, err = provider.Provider.Get(source, parameters)
    let ((image, err), w) := provider.Inner.Get source parameters w
    match err with
    | some e => ((none, some e), w)
    | none =>
      -- err = provider.Cache.Set(cacheKey, image, parameters)
      let (err, w) := provider.Cache.Set cacheKey image parameters w
      match err with
      | some e => ((none, some e), w)
      | none => ((image, none), w)

/-! ## Observing collaborator calls

To speak about which collaborator operations a call of `Provider.Get` invokes,
the collaborators are wrapped so that each operation appends a record of its
invocation (operation and arguments) to a log carried next to the world. The
wrapped operations otherwise behave exactly as the originals. -/

/-- One invocation of a collaborator operation, with its arguments. -/
inductive Call (Src Par Img : Type) where
  | getKey (source : Src) (parameters : Par)
  | cacheGet (key : GoString) (parameters : Par)
  | providerGet (source : Src) (parameters : Par)
  | cacheSet (key : GoString) (image : Option Img) (parameters : Par)
  deriving DecidableEq, Repr

/-- Is the invocation a call of the underlying provider's `Get`? -/
def Call.isProviderGet {Src Par Img : Type} : Call Src Par Img → Bool
  | .providerGet _ _ => true
  | _ => false

/-- Is the invocation a call of `Cache.Set`? -/
def Call.isCacheSet {Src Par Img : Type} : Call Src Par Img → Bool
  | .cacheSet _ _ _ => true
  | _ => false

/-- Is the invocation a call of `Cache.Get`? -/
def Call.isCacheGet {Src Par Img : Type} : Call Src Par Img → Bool
  | .cacheGet _ _ => true
  | _ => false

/-- Is the invocation a call of `KeyGenerator.GetKey`? -/
def Call.isGetKey {Src Par Img : Type} : Call Src Par Img → Bool
  | .getKey _ _ => true
  | _ => false

/-- World with a call log. -/
abbrev Logged (W Src Par Img : Type) := W × List (Call Src Par Img)

/-- The provider whose collaborators record each of their invocations. -/
def Provider.recorded {W Src Par Img Err : Type} (provider : Provider W Src Par Img Err) :
    Provider (Logged W Src Par Img) Src Par Img Err where
  Inner :=
    { Get := fun source parameters wl =>
        let (r, w) := provider.Inner.Get source parameters wl.1
        (r, (w, wl.2 ++ [Call.providerGet source parameters])) }
  Cache :=
    { Get := fun key parameters wl =>
        let (r, w) := provider.Cache.Get key parameters wl.1
        (r, (w, wl.2 ++ [Call.cacheGet key parameters]))
      Set := fun key image parameters wl =>
        let (r, w) := provider.Cache.Set key image parameters wl.1
        (r, (w, wl.2 ++ [Call.cacheSet key image parameters])) }
  KeyGenerator :=
    { GetKey := fun source parameters wl =>
        let (k, w) := provider.KeyGenerator.GetKey source parameters wl.1
        (k, (w, wl.2 ++ [Call.getKey source parameters])) }

/-! ## Key generators -/

/-- Type `KeyGeneratorFunc`: a func used as a `KeyGenerator`. -/
abbrev KeyGeneratorFunc (W Src Par : Type) := Src → Par → W → GoString × W

/-- Method `(f KeyGeneratorFunc) GetKey(source, parameters)`: calls the func. -/
def KeyGeneratorFunc.GetKey {W Src Par : Type} (f : KeyGeneratorFunc W Src Par)
    (source : Src) (parameters : Par) (w : W) : GoString × W :=
  f source parameters w

/-- A `KeyGeneratorFunc` seen through the interface `KeyGenerator`. -/
def KeyGeneratorFunc.toKeyGenerator {W Src Par : Type} (f : KeyGeneratorFunc W Src Par) :
    KeyGenerator W Src Par where
  GetKey := f.GetKey

/-- Struct `PrefixKeyGenerator`: a key generator that adds a prefix to the key. -/
structure PrefixKeyGenerator (W Src Par : Type) where
  /-- Embedded inner `KeyGenerator`. -/
  KeyGenerator : KeyGenerator W Src Par
  /-- Field `Prefix`. -/
  Prefix : GoString

/-- Method `(pkg *PrefixKeyGenerator) GetKey(source, parameters)`:
`pkg.Prefix + pkg.KeyGenerator.GetKey(source, parameters)`. -/
def PrefixKeyGenerator.GetKey {W Src Par : Type} (pkg : PrefixKeyGenerator W Src Par)
    (source : Src) (parameters : Par) (w : W) : GoString × W :=
  let (key, w) := pkg.KeyGenerator.GetKey source parameters w
  (pkg.Prefix ++ key, w)

/-- A `PrefixKeyGenerator` seen through the interface `KeyGenerator`. -/
def PrefixKeyGenerator.toKeyGenerator {W Src Par : Type} (pkg : PrefixKeyGenerator W Src Par) :
    Cache.KeyGenerator W Src Par where
  GetKey := pkg.GetKey

/-- The key generator that records each invocation of `GetKey` (its arguments) in a
log carried next to the world, and otherwise behaves as `g`. -/
def KeyGenerator.recorded {W Src Par : Type} (g : KeyGenerator W Src Par) :
    KeyGenerator (W × List (Src × Par)) Src Par where
  GetKey := fun source parameters wl =>
    let (k, w) := g.GetKey source parameters wl.1
    (k, (w, wl.2 ++ [(source, parameters)]))

/-- Sequential `GetKey` calls on one generator, the world threaded from each call to
the next; returns the keys in call order. -/
def KeyGenerator.GetKeys {W Src Par : Type} (g : KeyGenerator W Src Par) :
    List (Src × Par) → W → List GoString × W
  | [], w => ([], w)
  | (source, parameters) :: rest, w =>
    let (k, w) := g.GetKey source parameters w
    let (ks, w) := g.GetKeys rest w
    (k :: ks, w)

/-! ## Library pieces used by the hash-based generator

`encoding/hex`, `hash.Hash` and `sync.Pool` belong to the Go standard library.
They are embedded after their documented behaviour. -/

/-- The digit table of `encoding/hex`: the bytes of `"0123456789abcdef"`. -/
def hextable : List Byte :=
  [48, 49, 50, 51, 52, 53, 54, 55, 56, 57, 97, 98, 99, 100, 101, 102]

/-- Function `hex.EncodeToString(src)`: for each byte `v`, the digits
`hextable[v>>4]` and `hextable[v&0x0f]`. -/
def EncodeToString : List Byte → GoString
  | [] => []
  | v :: rest => hextable.getD (v.val / 16) 0 :: hextable.getD (v.val % 16) 0 :: EncodeToString rest

/-- Interface `hash.Hash`, over accumulators whose state has type `H`.
`Write` adds bytes to the running hash, `Sum(b)` appends the current digest to `b`,
`Reset` resets the accumulator. An implementation is arbitrary: `Sum` is allowed to
change the state and `Reset` is not assumed to restore anything. -/
structure Hash (H : Type) where
  /-- Method `Write(p)`; the returned count and error are ignored by the caller. -/
  Write : H → List Byte → H
  /-- Method `Sum(b)`: the resulting slice and the state afterwards. -/
  Sum : H → List Byte → List Byte × H
  /-- Method `Reset()`. -/
  Reset : H → H

/-- One invocation of a method of an accumulator, with its argument. -/
inductive HashOp where
  | write (p : List Byte)
  | sum (b : List Byte)
  | reset
  deriving DecidableEq, Repr

/-- The hash whose accumulators record each method invoked on them, in a log
carried next to the state, and otherwise behave as those of `hash`. -/
def Hash.recorded {H : Type} (hash : Hash H) : Hash (H × List HashOp) where
  Write := fun h p => (hash.Write h.1 p, h.2 ++ [HashOp.write p])
  Sum := fun h b => ((hash.Sum h.1 b).1, ((hash.Sum h.1 b).2, h.2 ++ [HashOp.sum b]))
  Reset := fun h => (hash.Reset h.1, h.2 ++ [HashOp.reset])

/-- Function `io.WriteString(h, s)` on a hash: writes the bytes of `s` with one call
of `Write` (an accumulator offering its own `WriteString` is taken to write the same
bytes). -/
def WriteString {H : Type} (hash : Hash H) (h : H) (s : GoString) : H :=
  hash.Write h s

/-- What the runtime decides when `sync.Pool.Get` is called: which stored items
have been discarded since the last operation (positions, removed one after the
other), and whether a stored item is handed out (`some i`, position after the
removals) or the pool is treated as empty (`none`). -/
structure PoolDecision where
  /-- Positions of stored items dropped by the runtime. -/
  evict : List Nat
  /-- Position of the stored item to hand out, if any. -/
  pick : Option Nat
  deriving DecidableEq, Repr

/-- A `sync.Pool` of accumulators: the stored items, and the decisions the runtime is
going to take at the coming calls of `Get` (when there is none left, `Get` treats the
pool as empty). -/
structure SyncPool (H : Type) where
  /-- Items currently stored. -/
  items : List H
  /-- Coming runtime decisions, one per call of `Get`. -/
  sched : List PoolDecision

/-- The pool as created by `&sync.Pool{New: ...}`: no stored item. -/
def SyncPool.new {H : Type} (sched : List PoolDecision) : SyncPool H :=
  { items := [], sched := sched }

/-- Method `(p *Pool) Get()`: selects an arbitrary stored item, removes it and returns
it; it may ignore the stored items, and when it has no item it returns `New()`. -/
def SyncPool.Get {H : Type} (New : Unit → H) (p : SyncPool H) : H × SyncPool H :=
  match p.sched with
  | [] => (New (), { items := p.items, sched := [] })
  | d :: rest =>
    let kept := d.evict.foldl (fun items i => items.eraseIdx i) p.items
    match d.pick with
    | none => (New (), { items := kept, sched := rest })
    | some i =>
      match kept[i]? with
      | some h => (h, { items := kept.eraseIdx i, sched := rest })
      | none => (New (), { items := kept, sched := rest })

/-- Method `(p *Pool) Put(x)`: adds `x` to the pool. -/
def SyncPool.Put {H : Type} (x : H) (p : SyncPool H) : SyncPool H :=
  { items := x :: p.items, sched := p.sched }

/-! ## `NewSourceHashKeyGenerator` -/

/-- Function `NewSourceHashKeyGenerator(newHashFunc)`: the key generator that hashes
the source. `Sprint` is `fmt.Sprint` on sources, `hash` the methods of the
accumulators that `newHashFunc` creates. The pool the Go function allocates is the
world of the returned generator and starts as `SyncPool.new`. `fmt.Sprint` is taken
to be a function of the source alone. -/
def NewSourceHashKeyGenerator {H Src Par : Type} (hash : Hash H) (Sprint : Src → GoString)
    (newHashFunc : Unit → H) : KeyGenerator (SyncPool H) Src Par :=
  KeyGeneratorFunc.toKeyGenerator (fun source _parameters pool =>
    -- h := pool.Get().(hash.Hash)
    let (h, pool) := pool.Get (fun _ => newHashFunc ())
    -- io.WriteString(h, fmt.Sprint(source))
    let h := WriteString hash h (Sprint source)
    -- data := h.Sum(nil)
    let (data, h) := hash.Sum h []
    -- h.Reset()
    let h := hash.Reset h
    -- pool.Put(h)
    let pool := pool.Put h
    (EncodeToString data, pool))

/-- The digest of `text` computed by a newly created accumulator: `Sum(nil)` after one
`Write` of `text`. -/
def freshDigest {H : Type} (hash : Hash H) (newHashFunc : Unit → H) (text : GoString) :
    List Byte :=
  (hash.Sum (hash.Write (newHashFunc ()) text) []).1

/-! ## Notions used to state properties of the key generators -/

/-- Is the byte one of the characters `0`-`9`, `a`-`f`? -/
def isLowerHex (c : Byte) : Bool :=
  (48 ≤ c.val && c.val ≤ 57) || (97 ≤ c.val && c.val ≤ 102)

/-- The generator `g` wrapped in a `PrefixKeyGenerator` for each prefix of the list,
the last prefix innermost and the first one outermost. -/
def nestPrefixes {W Src Par : Type} (prefixes : List GoString) (g : KeyGenerator W Src Par) :
    KeyGenerator W Src Par :=
  prefixes.foldr (fun p inner => (PrefixKeyGenerator.mk inner p).toKeyGenerator) g

/-- The hash-based generator over accumulators that record the methods invoked on
them; `newHashFunc` creates them with an empty record. -/
def recordedHashKeyGenerator {H Src Par : Type} (hash : Hash H) (Sprint : Src → GoString)
    (newHashFunc : Unit → H) : KeyGenerator (SyncPool (H × List HashOp)) Src Par :=
  NewSourceHashKeyGenerator hash.recorded Sprint (fun _ => (newHashFunc (), []))

/-- Is every accumulator stored in the pool in its reset state, that is, was `Reset`
the last method invoked on it? -/
def SyncPool.isClean {H : Type} (pool : SyncPool (H × List HashOp)) : Bool :=
  pool.items.all (fun a => a.2.getLast? == some HashOp.reset)

/-! ## Concurrent calls of the hash-based generator

Goroutines calling `GetKey` on one generator share its pool. Each call runs the five
statements of the closure one after the other; between two statements of a call,
statements of other calls may run. Accumulators are objects: they live in a heap and
are referred to by identity, so that two calls holding the same accumulator would
act on the same state. `sync.Pool` is safe for concurrent use: `Get` and `Put` are
single steps. `newHashFunc` is taken to create a new object at each call. -/

/-- What `sync.Pool.Get` does with the stored items under a runtime decision: the
item handed out, if any, and the items left. -/
def poolTake {A : Type} (d : PoolDecision) (items : List A) : Option A × List A :=
  let kept := d.evict.foldl (fun items i => items.eraseIdx i) items
  match d.pick with
  | none => (none, kept)
  | some i =>
    match kept[i]? with
    | some a => (some a, kept.eraseIdx i)
    | none => (none, kept)

/-- Position of a call of the closure of `NewSourceHashKeyGenerator`: the statement
it executed last, with the values of its local variables `h` (the identity of the
accumulator) and `data`. -/
inductive Pc where
  /-- Nothing executed yet. -/
  | start
  /-- After `h := pool.Get().(hash.Hash)`. -/
  | got (h : Nat)
  /-- After `io.WriteString(h, fmt.Sprint(source))`. -/
  | written (h : Nat)
  /-- After `data := h.Sum(nil)`. -/
  | summed (h : Nat) (data : List Byte)
  /-- After `h.Reset()`. -/
  | resetDone (h : Nat) (data : List Byte)
  /-- After `pool.Put(h)` and `return hex.EncodeToString(data)`, with the key returned. -/
  | done (key : GoString)
  deriving DecidableEq, Repr

/-- The accumulator a call holds in its variable `h`, between `Get` and `Put`. -/
def Pc.held : Pc → Option Nat
  | .start => none
  | .got h => some h
  | .written h => some h
  | .summed h _ => some h
  | .resetDone h _ => some h
  | .done _ => none

/-- Number of statements a call has executed. -/
def Pc.rank : Pc → Nat
  | .start => 0
  | .got _ => 1
  | .written _ => 2
  | .summed _ _ => 3
  | .resetDone _ _ => 4
  | .done _ => 5

/-- State of concurrent calls on one generator. -/
structure ConcState (H : Type) where
  /-- The accumulators created so far, by identity. -/
  heap : Nat → Option H
  /-- Number of accumulators created so far; the next identity. -/
  next : Nat
  /-- Identities of the accumulators stored in the pool. -/
  pool : List Nat
  /-- Position of each call. -/
  pc : Nat → Pc

/-- The state when the calls start on a new generator: no accumulator, an empty pool,
no statement executed. -/
def ConcState.init {H : Type} : ConcState H :=
  { heap := fun _ => none, next := 0, pool := [], pc := fun _ => Pc.start }

/-- Call number `t` of `calls` executes its next statement, the runtime deciding `d`
should the statement be `pool.Get()`. A number without call, or a call that has
returned, does nothing. -/
def concStep {H Src Par : Type} (hash : Hash H) (Sprint : Src → GoString)
    (newHashFunc : Unit → H) (calls : List (Src × Par)) (t : Nat) (d : PoolDecision)
    (c : ConcState H) : ConcState H :=
  match calls[t]? with
  | none => c
  | some (source, _) =>
    match c.pc t with
    | .start =>
      -- h := pool.Get().(hash.Hash)
      match poolTake d c.pool with
      | (some h, left) => { c with pool := left, pc := Function.update c.pc t (.got h) }
      | (none, left) =>
        { heap := Function.update c.heap c.next (some (newHashFunc ())),
          next := c.next + 1,
          pool := left,
          pc := Function.update c.pc t (.got c.next) }
    | .got h =>
      -- io.WriteString(h, fmt.Sprint(source))
      match c.heap h with
      | some st =>
        { c with heap := Function.update c.heap h (some (WriteString hash st (Sprint source))),
                 pc := Function.update c.pc t (.written h) }
      | none => c
    | .written h =>
      -- data := h.Sum(nil)
      match c.heap h with
      | some st =>
        { c with heap := Function.update c.heap h (some (hash.Sum st []).2),
                 pc := Function.update c.pc t (.summed h (hash.Sum st []).1) }
      | none => c
    | .summed h data =>
      -- h.Reset()
      match c.heap h with
      | some st =>
        { c with heap := Function.update c.heap h (some (hash.Reset st)),
                 pc := Function.update c.pc t (.resetDone h data) }
      | none => c
    | .resetDone h data =>
      -- pool.Put(h); return hex.EncodeToString(data)
      { c with pool := h :: c.pool,
               pc := Function.update c.pc t (.done (EncodeToString data)) }
    | .done _ => c

/-- An interleaving: the steps of the schedule one after the other, each naming the
call that executes its next statement. -/
def concRun {H Src Par : Type} (hash : Hash H) (Sprint : Src → GoString)
    (newHashFunc : Unit → H) (calls : List (Src × Par)) :
    List (Nat × PoolDecision) → ConcState H → ConcState H
  | [], c => c
  | (t, d) :: rest, c =>
    concRun hash Sprint newHashFunc calls rest (concStep hash Sprint newHashFunc calls t d c)

/-- Number of steps the schedule gives to call `t`. -/
def stepsOf (t : Nat) (sched : List (Nat × PoolDecision)) : Nat :=
  (sched.filter (fun td => td.1 == t)).length

/-- What holds of a call at each position, when `Reset` restores the initial state:
the accumulator it holds is in the state its statements so far produce from the
initial state, `data` is the digest of the text of its source, and the key it
returned is the encoding of that digest. -/
def PcOk {H Src : Type} (hash : Hash H) (Sprint : Src → GoString) (newHashFunc : Unit → H)
    (heap : Nat → Option H) (source : Src) : Pc → Prop
  | .start => True
  | .got h => heap h = some (newHashFunc ())
  | .written h => heap h = some (hash.Write (newHashFunc ()) (Sprint source))
  | .summed h data =>
    data = freshDigest hash newHashFunc (Sprint source) ∧ ∃ st, heap h = some st
  | .resetDone h data =>
    data = freshDigest hash newHashFunc (Sprint source) ∧ heap h = some (newHashFunc ())
  | .done key => key = EncodeToString (freshDigest hash newHashFunc (Sprint source))

/-- Invariant of the concurrent calls: the pool stores distinct accumulators, all in
the initial state; an accumulator held by a call is stored nowhere in the pool and
is held by no other call; each call is at a position satisfying `PcOk`. -/
structure ConcInv {H Src Par : Type} (hash : Hash H) (Sprint : Src → GoString)
    (newHashFunc : Unit → H) (calls : List (Src × Par)) (c : ConcState H) : Prop where
  /-- No accumulator is stored twice. -/
  pool_nodup : c.pool.Nodup
  /-- Stored accumulators exist and are in the initial state. -/
  pool_clean : ∀ id ∈ c.pool, id < c.next ∧ c.heap id = some (newHashFunc ())
  /-- Held accumulators exist. -/
  held_lt : ∀ t id, (c.pc t).held = some id → id < c.next
  /-- A held accumulator is not in the pool. -/
  held_not_pool : ∀ t id, (c.pc t).held = some id → id ∉ c.pool
  /-- No accumulator is held by two calls. -/
  held_unique : ∀ t1 t2 id, (c.pc t1).held = some id → (c.pc t2).held = some id → t1 = t2
  /-- Each call is at a sound position. -/
  pc_ok : ∀ t source parameters, calls[t]? = some (source, parameters) →
    PcOk hash Sprint newHashFunc c.heap source (c.pc t)
  /-- Numbers without a call stay at the start. -/
  pc_idle : ∀ t, calls[t]? = none → c.pc t = Pc.start

/-! ## Concrete collaborators used to evaluate the definitions -/

/-- A key generator over natural-number sources: the one-byte key made of the source
modulo 256. -/
def demoKeyGenerator {W : Type} : KeyGenerator W Nat Nat where
  GetKey := fun source _ w => ([Fin.ofNat source], w)

/-- A cache whose world is its store, a list of key and image pairs. `Get` fails with
error `40` on an absent key; `Set` refuses image `9` with error `50`, the nil image
with error `51`, and stores any other image. -/
def demoCache : ImageCache (List (GoString × Nat)) Nat Nat Nat where
  Get := fun key _ w =>
    match w.lookup key with
    | some img => ((some img, none), w)
    | none => ((none, some 40), w)
  Set := fun key image _ w =>
    match image with
    | some img => if img = 9 then (some 50, w) else (none, (key, img) :: w)
    | none => (some 51, w)

/-- A cache as `demoCache`, except that its `Get` fails with error `41` on an absent
key. -/
def demoCacheOutage : ImageCache (List (GoString × Nat)) Nat Nat Nat where
  Get := fun key _ w =>
    match w.lookup key with
    | some img => ((some img, none), w)
    | none => ((none, some 41), w)
  Set := demoCache.Set

/-- A cache whose `Get` answers every key with a nil image and a nil error, and
whose `Set` stores nothing. -/
def demoNilCache : ImageCache (List (GoString × Nat)) Nat Nat Nat where
  Get := fun _ _ w => ((none, none), w)
  Set := fun _ _ _ w => (none, w)

/-- A provider returning image `source + 6`, failing with error `60` on source `0`. -/
def demoImageProvider {W : Type} : ImageProvider W Nat Nat Nat Nat where
  Get := fun source _ w =>
    if source = 0 then ((none, some 60), w) else ((some (source + 6), none), w)

/-- The cached provider over the demo collaborators. -/
def demoProvider : Provider (List (GoString × Nat)) Nat Nat Nat Nat where
  Inner := demoImageProvider
  Cache := demoCache
  KeyGenerator := demoKeyGenerator

/-- Sources that are an integer or a Go string. -/
inductive DemoSource where
  | int (n : Nat)
  | str (s : GoString)
  deriving DecidableEq, Repr

/-- What `fmt.Sprint` gives on a `DemoSource`: the decimal digits of an integer, the
string itself for a string. -/
def demoSprint : DemoSource → GoString
  | .int n => (Nat.toDigits 10 n).map (fun c => Fin.ofNat c.toNat)
  | .str s => s

/-- A toy hash: the state is the list of bytes written so far, the digest is the one
byte holding their sum modulo 256, `Reset` empties the state. -/
def sumHash : Hash (List Byte) where
  Write := fun h p => h ++ p
  Sum := fun h b => (b ++ [h.foldl (fun acc v => acc + v) 0], h)
  Reset := fun _ => []

/-- A hash as `sumHash`, except that its `Reset` keeps the bytes written. -/
def stickyHash : Hash (List Byte) where
  Write := sumHash.Write
  Sum := sumHash.Sum
  Reset := fun h => h

/-- Constructor of `sumHash` accumulators. -/
def newSumHash : Unit → List Byte := fun _ => []

/-- The hash-based generator over `sumHash`, for sources that are Go strings
(`fmt.Sprint` of a string is the string). -/
def demoHashKeyGenerator : KeyGenerator (SyncPool (List Byte)) GoString Nat :=
  NewSourceHashKeyGenerator sumHash (fun s => s) newSumHash


/-! ## Helper lemmas -/

section Lemmas

variable {W Src Par Img Err : Type}

/-- Recording the calls does not change what `Provider.Get` returns nor the world it
leaves. -/
theorem recorded_Get_eq (provider : Provider W Src Par Img Err) (source : Src)
    (parameters : Par) (w : W) (log : List (Call Src Par Img)) :
    (provider.recorded.Get source parameters (w, log)).1
        = (provider.Get source parameters w).1 ∧
      (provider.recorded.Get source parameters (w, log)).2.1
        = (provider.Get source parameters w).2 := by
  rcases hK : provider.KeyGenerator.GetKey source parameters w with ⟨k, w1⟩
  rcases hG : provider.Cache.Get k parameters w1 with ⟨⟨i, e⟩, w2⟩
  cases e with
  | none => simp [Provider.Get, Provider.recorded, hK, hG]
  | some e =>
    rcases hP : provider.Inner.Get source parameters w2 with ⟨⟨j, e2⟩, w3⟩
    cases e2 with
    | some e2 => simp [Provider.Get, Provider.recorded, hK, hG, hP]
    | none =>
      rcases hS : provider.Cache.Set k j parameters w3 with ⟨e3, w4⟩
      cases e3 <;> simp [Provider.Get, Provider.recorded, hK, hG, hP, hS]

/-- Unfolding of `GetKeys` on a non-empty sequence of calls. -/
theorem KeyGenerator.GetKeys_cons {W Src Par : Type} (g : KeyGenerator W Src Par)
    (source : Src) (parameters : Par) (rest : List (Src × Par)) (w : W) :
    g.GetKeys ((source, parameters) :: rest) w =
      ((g.GetKey source parameters w).1 :: (g.GetKeys rest (g.GetKey source parameters w).2).1,
        (g.GetKeys rest (g.GetKey source parameters w).2).2) := rfl

/-- Discarding stored items only removes items. -/
theorem mem_of_mem_foldl_eraseIdx {H : Type} (evict : List Nat) (items : List H) (h : H)
    (hmem : h ∈ evict.foldl (fun items i => items.eraseIdx i) items) : h ∈ items := by
  induction evict generalizing items with
  | nil => simpa using hmem
  | cons i rest ih => exact List.mem_of_mem_eraseIdx (ih (items.eraseIdx i) hmem)

/-- `Get` on a pool hands out either a stored item or `New()`, and stores no item
that was not stored before. -/
theorem SyncPool.Get_spec {H : Type} (New : Unit → H) (pool : SyncPool H) :
    ((pool.Get New).1 = New () ∨ (pool.Get New).1 ∈ pool.items) ∧
      ∀ h ∈ (pool.Get New).2.items, h ∈ pool.items := by
  rcases pool with ⟨items, sched⟩
  cases sched with
  | nil => simp [SyncPool.Get]
  | cons d rest =>
    rcases d with ⟨evict, pick⟩
    cases pick with
    | none =>
      simp only [SyncPool.Get, true_or, true_and]
      intro h hmem
      exact mem_of_mem_foldl_eraseIdx evict items h hmem
    | some i =>
      simp only [SyncPool.Get]
      cases hk : (evict.foldl (fun items i => items.eraseIdx i) items)[i]? with
      | none =>
        simp only [true_or, true_and]
        intro h hmem
        exact mem_of_mem_foldl_eraseIdx evict items h hmem
      | some x =>
        refine ⟨Or.inr (mem_of_mem_foldl_eraseIdx evict items x (List.getElem?_mem hk)), ?_⟩
        intro h hmem
        exact mem_of_mem_foldl_eraseIdx evict items h (List.mem_of_mem_eraseIdx hmem)

/-- On a pool whose stored accumulators all are in the state `newHashFunc()` returns,
the hash-based generator returns the hex encoding of the digest of a newly created
accumulator fed with `fmt.Sprint(source)`. -/
theorem GetKey_of_clean {H Src Par : Type} (hash : Hash H) (Sprint : Src → GoString)
    (newHashFunc : Unit → H) (source : Src) (parameters : Par) (pool : SyncPool H)
    (hclean : ∀ h ∈ pool.items, h = newHashFunc ()) :
    ((NewSourceHashKeyGenerator hash Sprint newHashFunc).GetKey source parameters pool).1 =
      EncodeToString (freshDigest hash newHashFunc (Sprint source)) := by
  have hget : (pool.Get (fun _ => newHashFunc ())).1 = newHashFunc () := by
    rcases (SyncPool.Get_spec (fun _ => newHashFunc ()) pool).1 with h | h
    · exact h
    · exact hclean _ h
  simp [NewSourceHashKeyGenerator, KeyGeneratorFunc.toKeyGenerator, KeyGeneratorFunc.GetKey,
    WriteString, freshDigest, hget]

/-- When `Reset` restores the state `newHashFunc()` returns, a call of the hash-based
generator on a pool whose stored accumulators all are in that state leaves such a
pool. -/
theorem GetKey_preserves_clean {H Src Par : Type} (hash : Hash H) (Sprint : Src → GoString)
    (newHashFunc : Unit → H) (hReset : ∀ h, hash.Reset h = newHashFunc ())
    (source : Src) (parameters : Par) (pool : SyncPool H)
    (hclean : ∀ h ∈ pool.items, h = newHashFunc ()) :
    ∀ h ∈ ((NewSourceHashKeyGenerator hash Sprint newHashFunc).GetKey source parameters
      pool).2.items, h = newHashFunc () := by
  intro h hmem
  simp only [NewSourceHashKeyGenerator, KeyGeneratorFunc.toKeyGenerator,
    KeyGeneratorFunc.GetKey, SyncPool.Put, List.mem_cons] at hmem
  rcases hmem with hmem | hmem
  · rw [hmem]; exact hReset _
  · exact hclean h ((SyncPool.Get_spec (fun _ => newHashFunc ()) pool).2 h hmem)

/-- Discarding items of an empty list leaves it empty. -/
theorem foldl_eraseIdx_nil {H : Type} (evict : List Nat) :
    evict.foldl (fun items i => items.eraseIdx i) ([] : List H) = [] := by
  induction evict with
  | nil => rfl
  | cons i rest ih => simpa using ih

/-- `Get` on a pool without stored item returns `New()` and leaves the pool without
stored item. -/
theorem SyncPool.Get_new {H : Type} (New : Unit → H) (sched : List PoolDecision) :
    (SyncPool.new sched).Get New = (New (), SyncPool.new sched.tail) := by
  cases sched with
  | nil => rfl
  | cons d rest =>
    rcases d with ⟨evict, pick⟩
    cases pick <;> simp [SyncPool.Get, SyncPool.new, foldl_eraseIdx_nil]

/-- On a pool whose stored accumulators all are in the state `newHashFunc()` returns,
and with a `Reset` that restores this state, sequential calls of the hash-based
generator return, for each call, the hex encoding of the digest of a newly created
accumulator fed with `fmt.Sprint` of the call's source. -/
theorem GetKeys_of_clean {H Src Par : Type} (hash : Hash H) (Sprint : Src → GoString)
    (newHashFunc : Unit → H) (hReset : ∀ h, hash.Reset h = newHashFunc ())
    (calls : List (Src × Par)) (pool : SyncPool H)
    (hclean : ∀ h ∈ pool.items, h = newHashFunc ()) :
    ((NewSourceHashKeyGenerator hash Sprint newHashFunc).GetKeys calls pool).1 =
      calls.map (fun c => EncodeToString (freshDigest hash newHashFunc (Sprint c.1))) := by
  induction calls generalizing pool with
  | nil => rfl
  | cons c rest ih =>
    rcases c with ⟨source, parameters⟩
    simp only [KeyGenerator.GetKeys, List.map_cons]
    rw [GetKey_of_clean hash Sprint newHashFunc source parameters pool hclean,
      ih _ (GetKey_preserves_clean hash Sprint newHashFunc hReset source parameters pool hclean)]

/-- The sixteen entries of `hextable` are pairwise distinct. -/
theorem hextable_getD_injective :
    ∀ a b : Fin 16, hextable.getD a.val 0 = hextable.getD b.val 0 → a = b := by
  decide

/-- The sixteen entries of `hextable` are characters `0`-`9`, `a`-`f`. -/
theorem hextable_getD_isLowerHex : ∀ a : Fin 16, isLowerHex (hextable.getD a.val 0) = true := by
  decide

/-- A byte is determined by its two hexadecimal digits. -/
theorem hex_digits_injective (v v2 : Byte)
    (hhi : hextable.getD (v.val / 16) 0 = hextable.getD (v2.val / 16) 0)
    (hlo : hextable.getD (v.val % 16) 0 = hextable.getD (v2.val % 16) 0) : v = v2 := by
  have h1 := hextable_getD_injective ⟨v.val / 16, by omega⟩ ⟨v2.val / 16, by omega⟩ hhi
  have h2 := hextable_getD_injective ⟨v.val % 16, Nat.mod_lt _ (by decide)⟩
    ⟨v2.val % 16, Nat.mod_lt _ (by decide)⟩ hlo
  have h3 : v.val / 16 = v2.val / 16 := congrArg Fin.val h1
  have h4 : v.val % 16 = v2.val % 16 := congrArg Fin.val h2
  apply Fin.ext
  omega

/-- The encoding `hex.EncodeToString` is injective. -/
theorem EncodeToString_injective (d1 d2 : List Byte)
    (h : EncodeToString d1 = EncodeToString d2) : d1 = d2 := by
  induction d1 generalizing d2 with
  | nil =>
    cases d2 with
    | nil => rfl
    | cons v2 r2 => simp [EncodeToString] at h
  | cons v r ih =>
    cases d2 with
    | nil => simp [EncodeToString] at h
    | cons v2 r2 =>
      simp only [EncodeToString, List.cons.injEq] at h
      rw [hex_digits_injective v v2 h.1 h.2.1, ih r2 h.2.2]

/-- The encoding `hex.EncodeToString` has two characters for each byte. -/
theorem EncodeToString_length (d : List Byte) : (EncodeToString d).length = 2 * d.length := by
  induction d with
  | nil => rfl
  | cons v r ih => simp only [EncodeToString, List.length_cons, ih]; omega

/-- The encoding `hex.EncodeToString` is made of the characters `0`-`9`, `a`-`f`. -/
theorem EncodeToString_isLowerHex (d : List Byte) :
    ∀ c ∈ EncodeToString d, isLowerHex c = true := by
  induction d with
  | nil => intro c hc; simp [EncodeToString] at hc
  | cons v r ih =>
    intro c hc
    simp only [EncodeToString, List.mem_cons] at hc
    rcases hc with hc | hc | hc
    · rw [hc]; exact hextable_getD_isLowerHex ⟨v.val / 16, by omega⟩
    · rw [hc]; exact hextable_getD_isLowerHex ⟨v.val % 16, Nat.mod_lt _ (by decide)⟩
    · exact ih c hc

/-- The key of the hash-based generator is the encoding of the digest that the
accumulator handed out by the pool gives after the write. -/
theorem GetKey_eq_encode {H Src Par : Type} (hash : Hash H) (Sprint : Src → GoString)
    (newHashFunc : Unit → H) (source : Src) (parameters : Par) (pool : SyncPool H) :
    ((NewSourceHashKeyGenerator hash Sprint newHashFunc).GetKey source parameters pool).1 =
      EncodeToString (hash.Sum (hash.Write (pool.Get (fun _ => newHashFunc ())).1
        (Sprint source)) []).1 := by
  simp [NewSourceHashKeyGenerator, KeyGeneratorFunc.toKeyGenerator, KeyGeneratorFunc.GetKey,
    WriteString]

/-- Unfolding of `nestPrefixes` on a non-empty list of prefixes. -/
theorem nestPrefixes_cons {W Src Par : Type} (p : GoString) (rest : List GoString)
    (g : KeyGenerator W Src Par) (s : Src) (params : Par) (w : W) :
    (nestPrefixes (p :: rest) g).GetKey s params w =
      (p ++ ((nestPrefixes rest g).GetKey s params w).1,
        ((nestPrefixes rest g).GetKey s params w).2) := by
  simp [nestPrefixes, PrefixKeyGenerator.toKeyGenerator, PrefixKeyGenerator.GetKey]

/-- The key of nested prefix generators: the prefixes in order, then the inner key. -/
theorem nestPrefixes_GetKey {W Src Par : Type} (prefixes : List GoString)
    (g : KeyGenerator W Src Par) (s : Src) (params : Par) (w : W) :
    (nestPrefixes prefixes g).GetKey s params w =
      (prefixes.flatten ++ (g.GetKey s params w).1, (g.GetKey s params w).2) := by
  induction prefixes with
  | nil => simp [nestPrefixes]
  | cons p rest ih => rw [nestPrefixes_cons, ih]; simp

/-- A pool is clean when `Reset` is the last method invoked on each stored
accumulator. -/
theorem SyncPool.isClean_iff {H : Type} (pool : SyncPool (H × List HashOp)) :
    pool.isClean = true ↔ ∀ a ∈ pool.items, a.2.getLast? = some HashOp.reset := by
  simp [SyncPool.isClean, List.all_eq_true]

/-- Discarding stored items leaves a sublist. -/
theorem foldl_eraseIdx_sublist {H : Type} (evict : List Nat) (items : List H) :
    (evict.foldl (fun items i => items.eraseIdx i) items).Sublist items := by
  induction evict generalizing items with
  | nil => exact List.Sublist.refl _
  | cons i rest ih => exact (ih (items.eraseIdx i)).trans (List.eraseIdx_sublist items i)

/-- Taking the item at a position out of a list and putting it in front permutes
the list. -/
theorem cons_eraseIdx_perm {H : Type} (l : List H) (i : Nat) (h : H) (hi : l[i]? = some h) :
    (h :: l.eraseIdx i).Perm l := by
  induction l generalizing i with
  | nil => simp at hi
  | cons a r ih =>
    cases i with
    | zero =>
      simp only [List.getElem?_cons_zero, Option.some.injEq] at hi
      simp [hi]
    | succ j =>
      simp only [List.getElem?_cons_succ] at hi
      simp only [List.eraseIdx_cons_succ]
      exact (List.Perm.swap a h _).trans ((ih j hi).cons a)

/-- The items left in the pool by `Get` are a sublist of the stored ones; and the
accumulator handed out is `New()`, or it has been taken out of the stored ones. -/
theorem SyncPool.Get_removes {H : Type} (New : Unit → H) (pool : SyncPool H) :
    (pool.Get New).2.items.Sublist pool.items ∧
      ((pool.Get New).1 = New () ∨
        ((pool.Get New).1 :: (pool.Get New).2.items).Subperm pool.items) := by
  rcases pool with ⟨items, sched⟩
  cases sched with
  | nil => simp [SyncPool.Get]
  | cons d rest =>
    rcases d with ⟨evict, pick⟩
    cases pick with
    | none =>
      simp only [SyncPool.Get, true_or, and_true]
      exact foldl_eraseIdx_sublist evict items
    | some i =>
      simp only [SyncPool.Get]
      cases hk : (evict.foldl (fun items i => items.eraseIdx i) items)[i]? with
      | none =>
        simp only [true_or, and_true]
        exact foldl_eraseIdx_sublist evict items
      | some x =>
        refine ⟨(List.eraseIdx_sublist _ i).trans (foldl_eraseIdx_sublist evict items),
          Or.inr ?_⟩
        exact (cons_eraseIdx_perm _ i x hk).subperm.trans
          (foldl_eraseIdx_sublist evict items).subperm

/-- What a call of the recording hash-based generator leaves in the pool: the items
left by `Get`, and in front the accumulator handed out, on which `Write`, `Sum`,
`Reset` have been invoked. -/
theorem recordedHashKeyGenerator_items {H Src Par : Type} (hash : Hash H)
    (Sprint : Src → GoString) (newHashFunc : Unit → H) (s : Src) (params : Par)
    (pool : SyncPool (H × List HashOp)) :
    ((recordedHashKeyGenerator hash Sprint newHashFunc).GetKey s params pool).2.items =
      (hash.Reset (hash.Sum (hash.Write
          (pool.Get (fun _ => (newHashFunc (), []))).1.1 (Sprint s)) []).2,
        (pool.Get (fun _ => (newHashFunc (), []))).1.2 ++
          [HashOp.write (Sprint s), HashOp.sum [], HashOp.reset]) ::
        (pool.Get (fun _ => (newHashFunc (), []))).2.items := by
  simp [recordedHashKeyGenerator, NewSourceHashKeyGenerator, KeyGeneratorFunc.toKeyGenerator,
    KeyGeneratorFunc.GetKey, WriteString, SyncPool.Put, Hash.recorded]

/-- A call of the recording hash-based generator on a clean pool leaves a clean
pool. -/
theorem recordedHashKeyGenerator_clean {H Src Par : Type} (hash : Hash H)
    (Sprint : Src → GoString) (newHashFunc : Unit → H) (s : Src) (params : Par)
    (pool : SyncPool (H × List HashOp)) (hclean : pool.isClean = true) :
    ((recordedHashKeyGenerator hash Sprint newHashFunc).GetKey s params pool).2.isClean
      = true := by
  rw [SyncPool.isClean_iff] at hclean ⊢
  intro a ha
  rw [recordedHashKeyGenerator_items, List.mem_cons] at ha
  rcases ha with ha | ha
  · rw [ha]
    simp
  · exact hclean a ((SyncPool.Get_spec _ pool).2 a ha)

/-- Sequential calls of the recording hash-based generator on a clean pool leave a
clean pool. -/
theorem recordedHashKeyGenerator_GetKeys_clean {H Src Par : Type} (hash : Hash H)
    (Sprint : Src → GoString) (newHashFunc : Unit → H) (calls : List (Src × Par))
    (pool : SyncPool (H × List HashOp)) (hclean : pool.isClean = true) :
    ((recordedHashKeyGenerator hash Sprint newHashFunc).GetKeys calls pool).2.isClean
      = true := by
  induction calls generalizing pool with
  | nil => exact hclean
  | cons c rest ih =>
    rcases c with ⟨s, params⟩
    rw [KeyGenerator.GetKeys_cons]
    exact ih _ (recordedHashKeyGenerator_clean hash Sprint newHashFunc s params pool hclean)

/-- When `Reset` restores the state `newHashFunc()` returns, sequential calls of the
hash-based generator on a pool whose stored accumulators all are in that state leave
such a pool. -/
theorem GetKeys_preserves_clean {H Src Par : Type} (hash : Hash H) (Sprint : Src → GoString)
    (newHashFunc : Unit → H) (hReset : ∀ h, hash.Reset h = newHashFunc ())
    (calls : List (Src × Par)) (pool : SyncPool H)
    (hclean : ∀ h ∈ pool.items, h = newHashFunc ()) :
    ∀ h ∈ ((NewSourceHashKeyGenerator hash Sprint newHashFunc).GetKeys calls pool).2.items,
      h = newHashFunc () := by
  induction calls generalizing pool with
  | nil => exact hclean
  | cons c rest ih =>
    rcases c with ⟨s, params⟩
    rw [KeyGenerator.GetKeys_cons]
    exact ih _ (GetKey_preserves_clean hash Sprint newHashFunc hReset s params pool hclean)

end Lemmas

section Concurrent

variable {H Src Par : Type} (hash : Hash H) (Sprint : Src → GoString) (newHashFunc : Unit → H)

/-- The items `poolTake` leaves are a sublist of the stored ones, and the item handed
out has been taken out of them. -/
theorem poolTake_spec {A : Type} (d : PoolDecision) (items : List A) :
    (poolTake d items).2.Sublist items ∧
      ∀ a, (poolTake d items).1 = some a → (a :: (poolTake d items).2).Subperm items := by
  rcases d with ⟨evict, pick⟩
  cases pick with
  | none =>
    simp only [poolTake]
    exact ⟨foldl_eraseIdx_sublist evict items, fun a ha => by simp at ha⟩
  | some i =>
    simp only [poolTake]
    cases hk : (evict.foldl (fun items i => items.eraseIdx i) items)[i]? with
    | none => exact ⟨foldl_eraseIdx_sublist evict items, fun a ha => by simp at ha⟩
    | some x =>
      refine ⟨(List.eraseIdx_sublist _ i).trans (foldl_eraseIdx_sublist evict items), ?_⟩
      intro a ha
      simp only [Option.some.injEq] at ha
      subst ha
      exact (cons_eraseIdx_perm _ i x hk).subperm.trans
        (foldl_eraseIdx_sublist evict items).subperm

/-- `SyncPool.Get` is `poolTake` under the first decision of the schedule, `New()`
standing in when no item is handed out. -/
theorem SyncPool.Get_eq_poolTake {A : Type} (New : Unit → A) (items : List A)
    (d : PoolDecision) (rest : List PoolDecision) :
    (SyncPool.mk items (d :: rest)).Get New =
      (((poolTake d items).1).getD (New ()), SyncPool.mk (poolTake d items).2 rest) := by
  rcases d with ⟨evict, pick⟩
  cases pick with
  | none => simp [SyncPool.Get, poolTake]
  | some i =>
    simp only [SyncPool.Get, poolTake]
    cases hk : (evict.foldl (fun items i => items.eraseIdx i) items)[i]? <;> simp

/-- The property `PcOk` depends on the heap only through the accumulator held. -/
theorem PcOk_congr (heap heap2 : Nat → Option H) (source : Src) (pc : Pc)
    (hsame : ∀ id, pc.held = some id → heap2 id = heap id)
    (hok : PcOk hash Sprint newHashFunc heap source pc) :
    PcOk hash Sprint newHashFunc heap2 source pc := by
  cases pc with
  | start => trivial
  | got h => simp only [PcOk] at hok ⊢; rw [hsame h rfl]; exact hok
  | written h => simp only [PcOk] at hok ⊢; rw [hsame h rfl]; exact hok
  | summed h data => simp only [PcOk] at hok ⊢; rw [hsame h rfl]; exact hok
  | resetDone h data => simp only [PcOk] at hok ⊢; rw [hsame h rfl]; exact hok
  | done key => exact hok

/-- The new generator with its calls at the start satisfies the invariant. -/
theorem ConcInv_init (calls : List (Src × Par)) :
    ConcInv hash Sprint newHashFunc calls (ConcState.init : ConcState H) where
  pool_nodup := List.nodup_nil
  pool_clean := fun id hid => by simp [ConcState.init] at hid
  held_lt := fun t id h => by simp [ConcState.init, Pc.held] at h
  held_not_pool := fun t id _ => by simp [ConcState.init]
  held_unique := fun t1 t2 id h => by simp [ConcState.init, Pc.held] at h
  pc_ok := fun t source parameters _ => by simp [ConcState.init, PcOk]
  pc_idle := fun t _ => rfl

/-- A statement acting on the accumulator a call holds, which the call keeps holding,
preserves the invariant. -/
theorem ConcInv_local (calls : List (Src × Par)) (c : ConcState H)
    (hinv : ConcInv hash Sprint newHashFunc calls c) (t h : Nat) (source : Src)
    (parameters : Par) (hcall : calls[t]? = some (source, parameters))
    (hheld : (c.pc t).held = some h) (pc2 : Pc) (hheld2 : pc2.held = some h) (st2 : H)
    (hok : PcOk hash Sprint newHashFunc (Function.update c.heap h (some st2)) source pc2) :
    ConcInv hash Sprint newHashFunc calls
      { c with heap := Function.update c.heap h (some st2),
               pc := Function.update c.pc t pc2 } where
  pool_nodup := hinv.pool_nodup
  pool_clean := by
    intro id hid
    have hne : id ≠ h := fun e => hinv.held_not_pool t h hheld (e ▸ hid)
    simpa [Function.update_apply, hne] using hinv.pool_clean id hid
  held_lt := by
    intro t2 id hid
    simp only [Function.update_apply] at hid
    split at hid
    · rw [hheld2] at hid
      exact hinv.held_lt t id (hid ▸ hheld)
    · exact hinv.held_lt t2 id hid
  held_not_pool := by
    intro t2 id hid
    simp only [Function.update_apply] at hid
    split at hid
    · rw [hheld2] at hid
      exact hinv.held_not_pool t id (hid ▸ hheld)
    · exact hinv.held_not_pool t2 id hid
  held_unique := by
    intro t1 t2 id h1 h2
    simp only [Function.update_apply] at h1 h2
    split at h1 <;> split at h2
    · simp_all
    · rw [hheld2] at h1
      rename_i e1 _
      rw [e1]
      exact hinv.held_unique t t2 id (h1 ▸ hheld) h2
    · rw [hheld2] at h2
      rename_i _ e2
      rw [e2]
      exact hinv.held_unique t1 t id h1 (h2 ▸ hheld)
    · exact hinv.held_unique t1 t2 id h1 h2
  pc_ok := by
    intro t2 source2 parameters2 hcall2
    by_cases ht : t2 = t
    · subst ht
      rw [hcall] at hcall2
      simp only [Option.some.injEq, Prod.mk.injEq] at hcall2
      simp only [Function.update_same]
      rw [← hcall2.1]
      exact hok
    · simp only [Function.update_noteq ht]
      apply PcOk_congr hash Sprint newHashFunc c.heap _ source2 (c.pc t2) _
        (hinv.pc_ok t2 source2 parameters2 hcall2)
      intro id hid
      have hne : id ≠ h := fun e => ht (hinv.held_unique t2 t h (e ▸ hid) hheld)
      simp [Function.update_apply, hne]
  pc_idle := by
    intro t2 hnone
    have ht : t2 ≠ t := fun e => by rw [e, hcall] at hnone; simp at hnone
    simp only [Function.update_noteq ht]
    exact hinv.pc_idle t2 hnone

/-- Each step of a call preserves the invariant, when `Reset` restores the initial
state. -/
theorem concStep_inv (hReset : ∀ h, hash.Reset h = newHashFunc ()) (calls : List (Src × Par))
    (t : Nat) (d : PoolDecision) (c : ConcState H)
    (hinv : ConcInv hash Sprint newHashFunc calls c) :
    ConcInv hash Sprint newHashFunc calls (concStep hash Sprint newHashFunc calls t d c) := by
  unfold concStep
  cases hcall : calls[t]? with
  | none => exact hinv
  | some sp =>
    rcases sp with ⟨source, parameters⟩
    have hok := hinv.pc_ok t source parameters hcall
    cases hpc : c.pc t with
    | start =>
      have hspec := poolTake_spec d c.pool
      rcases htake : poolTake d c.pool with ⟨taken, left⟩
      rw [htake] at hspec
      have hsub : ∀ id ∈ left, id ∈ c.pool := fun id hid => hspec.1.subset hid
      cases taken with
      | some h =>
        have hperm := hspec.2 h rfl
        have hnd : (h :: left).Nodup := by
          obtain ⟨l, hp, hs⟩ := hperm
          exact hp.nodup_iff.mp (hs.nodup hinv.pool_nodup)
        have hmem : h ∈ c.pool := hperm.subset (List.mem_cons_self h left)
        exact
          { pool_nodup := (List.nodup_cons.mp hnd).2
            pool_clean := fun id hid => hinv.pool_clean id (hsub id hid)
            held_lt := by
              intro t2 id hid
              simp only [Function.update_apply] at hid
              split at hid
              · simp only [Pc.held, Option.some.injEq] at hid
                exact hid ▸ (hinv.pool_clean h hmem).1
              · exact hinv.held_lt t2 id hid
            held_not_pool := by
              intro t2 id hid
              simp only [Function.update_apply] at hid
              split at hid
              · simp only [Pc.held, Option.some.injEq] at hid
                exact hid ▸ (List.nodup_cons.mp hnd).1
              · exact fun hin => hinv.held_not_pool t2 id hid (hsub id hin)
            held_unique := by
              intro t1 t2 id h1 h2
              simp only [Function.update_apply] at h1 h2
              split at h1 <;> split at h2
              · simp_all
              · simp only [Pc.held, Option.some.injEq] at h1
                exact absurd (h1 ▸ hmem) (hinv.held_not_pool t2 id h2)
              · simp only [Pc.held, Option.some.injEq] at h2
                exact absurd (h2 ▸ hmem) (hinv.held_not_pool t1 id h1)
              · exact hinv.held_unique t1 t2 id h1 h2
            pc_ok := by
              intro t2 source2 parameters2 hcall2
              simp only [Function.update_apply]
              split
              · exact (hinv.pool_clean h hmem).2
              · exact hinv.pc_ok t2 source2 parameters2 hcall2
            pc_idle := by
              intro t2 hnone
              have ht : t2 ≠ t := fun e => by rw [e, hcall] at hnone; simp at hnone
              simp only [Function.update_noteq ht]
              exact hinv.pc_idle t2 hnone }
      | none =>
        exact
          { pool_nodup := hspec.1.nodup hinv.pool_nodup
            pool_clean := by
              intro id hid
              have hlt := (hinv.pool_clean id (hsub id hid)).1
              have hne : id ≠ c.next := Nat.ne_of_lt hlt
              refine ⟨Nat.lt_succ_of_lt hlt, ?_⟩
              simpa [Function.update_apply, hne] using (hinv.pool_clean id (hsub id hid)).2
            held_lt := by
              intro t2 id hid
              simp only [Function.update_apply] at hid
              split at hid
              · simp only [Pc.held, Option.some.injEq] at hid
                exact hid ▸ Nat.lt_succ_self c.next
              · exact Nat.lt_succ_of_lt (hinv.held_lt t2 id hid)
            held_not_pool := by
              intro t2 id hid
              simp only [Function.update_apply] at hid
              split at hid
              · simp only [Pc.held, Option.some.injEq] at hid
                intro hin
                have hlt := (hinv.pool_clean id (hsub id hin)).1
                omega
              · exact fun hin => hinv.held_not_pool t2 id hid (hsub id hin)
            held_unique := by
              intro t1 t2 id h1 h2
              simp only [Function.update_apply] at h1 h2
              split at h1 <;> split at h2
              · simp_all
              · simp only [Pc.held, Option.some.injEq] at h1
                have hlt := hinv.held_lt t2 id h2
                omega
              · simp only [Pc.held, Option.some.injEq] at h2
                have hlt := hinv.held_lt t1 id h1
                omega
              · exact hinv.held_unique t1 t2 id h1 h2
            pc_ok := by
              intro t2 source2 parameters2 hcall2
              simp only [Function.update_apply]
              split
              · simp [PcOk]
              · apply PcOk_congr hash Sprint newHashFunc c.heap _ source2 (c.pc t2) _
                  (hinv.pc_ok t2 source2 parameters2 hcall2)
                intro id hid
                have hne : id ≠ c.next := Nat.ne_of_lt (hinv.held_lt t2 id hid)
                simp [Function.update_apply, hne]
            pc_idle := by
              intro t2 hnone
              have ht : t2 ≠ t := fun e => by rw [e, hcall] at hnone; simp at hnone
              simp only [Function.update_noteq ht]
              exact hinv.pc_idle t2 hnone }
    | got h =>
      rw [hpc] at hok
      simp only [PcOk] at hok
      simp only [hok]
      exact ConcInv_local hash Sprint newHashFunc calls c hinv t h source parameters hcall
        (by rw [hpc]; rfl) (Pc.written h) rfl _ (by simp [PcOk, WriteString])
    | written h =>
      rw [hpc] at hok
      simp only [PcOk] at hok
      simp only [hok]
      exact ConcInv_local hash Sprint newHashFunc calls c hinv t h source parameters hcall
        (by rw [hpc]; rfl) (Pc.summed h _) rfl _ (by simp [PcOk, freshDigest])
    | summed h data =>
      rw [hpc] at hok
      simp only [PcOk] at hok
      obtain ⟨hdata, st, hst⟩ := hok
      simp only [hst]
      exact ConcInv_local hash Sprint newHashFunc calls c hinv t h source parameters hcall
        (by rw [hpc]; rfl) (Pc.resetDone h data) rfl _ (by simp [PcOk, hdata, hReset])
    | resetDone h data =>
      rw [hpc] at hok
      simp only [PcOk] at hok
      have hheld : (c.pc t).held = some h := by rw [hpc]; rfl
      exact
        { pool_nodup := List.nodup_cons.mpr ⟨hinv.held_not_pool t h hheld, hinv.pool_nodup⟩
          pool_clean := by
            intro id hid
            rcases List.mem_cons.mp hid with e | hin
            · subst e
              exact ⟨hinv.held_lt t id hheld, hok.2⟩
            · exact hinv.pool_clean id hin
          held_lt := by
            intro t2 id hid
            simp only [Function.update_apply] at hid
            split at hid
            · simp [Pc.held] at hid
            · exact hinv.held_lt t2 id hid
          held_not_pool := by
            intro t2 id hid
            simp only [Function.update_apply] at hid
            split at hid
            · simp [Pc.held] at hid
            · rename_i ht
              intro hin
              rcases List.mem_cons.mp hin with e | hin
              · exact ht (hinv.held_unique t2 t h (e ▸ hid) hheld)
              · exact hinv.held_not_pool t2 id hid hin
          held_unique := by
            intro t1 t2 id h1 h2
            simp only [Function.update_apply] at h1 h2
            split at h1 <;> split at h2
            · simp_all
            · simp [Pc.held] at h1
            · simp [Pc.held] at h2
            · exact hinv.held_unique t1 t2 id h1 h2
          pc_ok := by
            intro t2 source2 parameters2 hcall2
            simp only [Function.update_apply]
            split
            · rename_i ht
              rw [ht, hcall] at hcall2
              simp only [Option.some.injEq, Prod.mk.injEq] at hcall2
              simp [PcOk, hok.1, hcall2.1]
            · exact hinv.pc_ok t2 source2 parameters2 hcall2
          pc_idle := by
            intro t2 hnone
            have ht : t2 ≠ t := fun e => by rw [e, hcall] at hnone; simp at hnone
            simp only [Function.update_noteq ht]
            exact hinv.pc_idle t2 hnone }
    | done key => exact hinv

/-- A step of call `t` leaves the position of every other call unchanged. -/
theorem concStep_other (calls : List (Src × Par)) (t : Nat) (d : PoolDecision)
    (c : ConcState H) (t2 : Nat) (ht : t2 ≠ t) :
    (concStep hash Sprint newHashFunc calls t d c).pc t2 = c.pc t2 := by
  unfold concStep
  cases calls[t]? with
  | none => rfl
  | some sp =>
    rcases sp with ⟨source, parameters⟩
    cases c.pc t with
    | start =>
      rcases poolTake d c.pool with ⟨taken, left⟩
      cases taken <;> simp [Function.update_noteq ht]
    | got h => cases hh : c.heap h <;> simp [hh, Function.update_noteq ht]
    | written h => cases hh : c.heap h <;> simp [hh, Function.update_noteq ht]
    | summed h data => cases hh : c.heap h <;> simp [hh, Function.update_noteq ht]
    | resetDone h data => simp [Function.update_noteq ht]
    | done key => rfl

/-- Under the invariant a step of a call executes one statement, unless the call has
returned. -/
theorem concStep_rank (calls : List (Src × Par)) (t : Nat) (d : PoolDecision)
    (c : ConcState H) (hinv : ConcInv hash Sprint newHashFunc calls c)
    (hcall : calls[t]? ≠ none) :
    ((concStep hash Sprint newHashFunc calls t d c).pc t).rank =
      min 5 ((c.pc t).rank + 1) := by
  unfold concStep
  cases hc : calls[t]? with
  | none => exact absurd hc hcall
  | some sp =>
    rcases sp with ⟨source, parameters⟩
    have hok := hinv.pc_ok t source parameters hc
    cases hpc : c.pc t with
    | start =>
      rcases poolTake d c.pool with ⟨taken, left⟩
      cases taken <;> simp [Pc.rank]
    | got h =>
      rw [hpc] at hok
      simp only [PcOk] at hok
      simp [hok, Pc.rank]
    | written h =>
      rw [hpc] at hok
      simp only [PcOk] at hok
      simp [hok, Pc.rank]
    | summed h data =>
      rw [hpc] at hok
      simp only [PcOk] at hok
      obtain ⟨_, st, hst⟩ := hok
      simp [hst, Pc.rank]
    | resetDone h data => simp [Pc.rank]
    | done key => simp [hpc, Pc.rank]

/-- Unfolding of `stepsOf` on a non-empty schedule. -/
theorem stepsOf_cons (t t0 : Nat) (d : PoolDecision) (rest : List (Nat × PoolDecision)) :
    stepsOf t ((t0, d) :: rest) = (if t0 = t then 1 else 0) + stepsOf t rest := by
  by_cases h : t0 = t
  · simp [stepsOf, List.filter_cons, h]
    omega
  · simp [stepsOf, List.filter_cons, h]

/-- Along every interleaving the invariant holds, and each call has executed as many
statements as the schedule gave it steps, up to the five it has. -/
theorem concRun_inv_rank (hReset : ∀ h, hash.Reset h = newHashFunc ())
    (calls : List (Src × Par)) (sched : List (Nat × PoolDecision)) (c : ConcState H)
    (hinv : ConcInv hash Sprint newHashFunc calls c) :
    ConcInv hash Sprint newHashFunc calls (concRun hash Sprint newHashFunc calls sched c) ∧
      ∀ t, calls[t]? ≠ none →
        ((concRun hash Sprint newHashFunc calls sched c).pc t).rank =
          min 5 ((c.pc t).rank + stepsOf t sched) := by
  induction sched generalizing c with
  | nil =>
    refine ⟨hinv, fun t _ => ?_⟩
    have hle : (c.pc t).rank ≤ 5 := by cases c.pc t <;> simp [Pc.rank]
    simp only [concRun, stepsOf, List.filter_nil, List.length_nil, Nat.add_zero]
    omega
  | cons td rest ih =>
    rcases td with ⟨t0, d⟩
    have hstep := concStep_inv hash Sprint newHashFunc hReset calls t0 d c hinv
    obtain ⟨hfin, hrank⟩ := ih (concStep hash Sprint newHashFunc calls t0 d c) hstep
    refine ⟨hfin, fun t hcall => ?_⟩
    simp only [concRun]
    rw [hrank t hcall, stepsOf_cons]
    by_cases ht : t0 = t
    · subst ht
      rw [concStep_rank hash Sprint newHashFunc calls t0 d c hinv hcall]
      simp only [if_true]
      omega
    · rw [concStep_other hash Sprint newHashFunc calls t0 d c t (fun e => ht e.symm)]
      simp only [if_neg ht]
      omega

/-- A call that has executed its five statements has returned. -/
theorem Pc.done_of_rank (pc : Pc) (h : pc.rank = 5) : ∃ key, pc = Pc.done key := by
  cases pc <;> simp [Pc.rank] at h
  exact ⟨_, rfl⟩

end Concurrent

/-! ## Theorems on `Provider.Get` -/

section ProviderGet

variable {W Src Par Img Err : Type}

/-- C1 (cache hit): if the key generator derives `K` and `Cache.Get(K, parameters)`
returns image `I` with a nil error, then `Provider.Get(source, parameters)` returns
`(I, nil)`, the only collaborator calls are `GetKey` and `Cache.Get`, and the
underlying provider's `Get` is not invoked. -/
theorem Get_cache_hit (provider : Provider W Src Par Img Err) (source : Src)
    (parameters : Par) (w w1 w2 : W) (K : GoString) (I : Option Img)
    (hK : provider.KeyGenerator.GetKey source parameters w = (K, w1))
    (hGet : provider.Cache.Get K parameters w1 = ((I, none), w2)) :
    provider.Get source parameters w = ((I, none), w2) ∧
      provider.recorded.Get source parameters (w, []) =
        ((I, none), (w2, [Call.getKey source parameters, Call.cacheGet K parameters])) ∧
      (provider.recorded.Get source parameters (w, [])).2.2.filter Call.isProviderGet = [] := by
  simp [Provider.Get, Provider.recorded, hK, hGet, Call.isProviderGet]

/-- Witness of C1 on the demo provider, whose cache holds image `7` under key `[1]`. -/
theorem Get_cache_hit_witness :
    demoProvider.KeyGenerator.GetKey 1 0 [([1], 7)] = ([1], [([1], 7)]) ∧
      demoProvider.Cache.Get [1] 0 [([1], 7)] = ((some 7, none), [([1], 7)]) ∧
      demoProvider.Get 1 0 [([1], 7)] = ((some 7, none), [([1], 7)]) ∧
      demoProvider.recorded.Get 1 0 ([([1], 7)], []) =
        ((some 7, none), ([([1], 7)], [Call.getKey 1 0, Call.cacheGet [1] 0])) ∧
      (demoProvider.recorded.Get 1 0 ([([1], 7)], [])).2.2.filter Call.isProviderGet = [] :=
  ⟨by decide, by decide,
    Get_cache_hit demoProvider 1 0 [([1], 7)] [([1], 7)] [([1], 7)] [1] (some 7)
      (by decide) (by decide)⟩

/-- C2 (miss, provider success, store success): if `Cache.Get(K, parameters)` returns
an error, the underlying provider returns image `J` with a nil error and
`Cache.Set(K, J, parameters)` returns nil, then `Provider.Get` returns `(J, nil)`. -/
theorem Get_miss_store_ok (provider : Provider W Src Par Img Err) (source : Src)
    (parameters : Par) (w w1 w2 w3 w4 : W) (K : GoString) (i : Option Img) (e : Err)
    (J : Option Img)
    (hK : provider.KeyGenerator.GetKey source parameters w = (K, w1))
    (hGet : provider.Cache.Get K parameters w1 = ((i, some e), w2))
    (hProv : provider.Inner.Get source parameters w2 = ((J, none), w3))
    (hSet : provider.Cache.Set K J parameters w3 = (none, w4)) :
    provider.Get source parameters w = ((J, none), w4) := by
  simp [Provider.Get, hK, hGet, hProv, hSet]

/-- Witness of C2 on the demo provider: source `2` is absent from the empty store,
the provider returns image `8`, the store accepts it. -/
theorem Get_miss_store_ok_witness :
    demoProvider.KeyGenerator.GetKey 2 0 [] = ([2], []) ∧
      demoProvider.Cache.Get [2] 0 [] = ((none, some 40), []) ∧
      demoProvider.Inner.Get 2 0 [] = ((some 8, none), []) ∧
      demoProvider.Cache.Set [2] (some 8) 0 [] = (none, [([2], 8)]) ∧
      demoProvider.Get 2 0 [] = ((some 8, none), [([2], 8)]) :=
  ⟨by decide, by decide, by decide, by decide,
    Get_miss_store_ok demoProvider 2 0 [] [] [] [] [([2], 8)] [2] none 40 (some 8)
      (by decide) (by decide) (by decide) (by decide)⟩

/-- C3 (cache population): if `Cache.Get(K, parameters)` returns an error and the
underlying provider returns image `J` with a nil error, then the calls made are
`GetKey`, `Cache.Get(K, parameters)`, the provider's `Get`, `Cache.Set(K, J, parameters)`
in this order: `Cache.Set` is invoked exactly once, with the key passed to `Cache.Get`
(derived by the single `GetKey` call), the provider's image and the caller's
parameters, whatever `Cache.Set` returns. -/
theorem Get_miss_populates (provider : Provider W Src Par Img Err) (source : Src)
    (parameters : Par) (w w1 w2 w3 : W) (K : GoString) (i : Option Img) (e : Err)
    (J : Option Img)
    (hK : provider.KeyGenerator.GetKey source parameters w = (K, w1))
    (hGet : provider.Cache.Get K parameters w1 = ((i, some e), w2))
    (hProv : provider.Inner.Get source parameters w2 = ((J, none), w3)) :
    (provider.recorded.Get source parameters (w, [])).2.2 =
        [Call.getKey source parameters, Call.cacheGet K parameters,
          Call.providerGet source parameters, Call.cacheSet K J parameters] ∧
      (provider.recorded.Get source parameters (w, [])).2.2.filter Call.isCacheSet =
        [Call.cacheSet K J parameters] ∧
      (provider.recorded.Get source parameters (w, [])).2.2.filter Call.isGetKey =
        [Call.getKey source parameters] ∧
      (provider.recorded.Get source parameters (w, [])).2.1 =
        (provider.Cache.Set K J parameters w3).2 := by
  rcases hS : provider.Cache.Set K J parameters w3 with ⟨e3, w4⟩
  cases e3 <;>
    simp [Provider.Get, Provider.recorded, hK, hGet, hProv, hS, Call.isCacheSet, Call.isGetKey]

/-- Witness of C3 on the demo provider: for source `3` the provider returns image `9`,
which the store refuses; `Cache.Set` is still invoked once with `([3], 9, 0)`. -/
theorem Get_miss_populates_witness :
    demoProvider.KeyGenerator.GetKey 3 0 [] = ([3], []) ∧
      demoProvider.Cache.Get [3] 0 [] = ((none, some 40), []) ∧
      demoProvider.Inner.Get 3 0 [] = ((some 9, none), []) ∧
      (demoProvider.recorded.Get 3 0 ([], [])).2.2 =
        [Call.getKey 3 0, Call.cacheGet [3] 0, Call.providerGet 3 0,
          Call.cacheSet [3] (some 9) 0] ∧
      (demoProvider.recorded.Get 3 0 ([], [])).2.2.filter Call.isCacheSet =
        [Call.cacheSet [3] (some 9) 0] ∧
      (demoProvider.recorded.Get 3 0 ([], [])).2.2.filter Call.isGetKey =
        [Call.getKey 3 0] ∧
      (demoProvider.recorded.Get 3 0 ([], [])).2.1 =
        (demoProvider.Cache.Set [3] (some 9) 0 []).2 :=
  ⟨by decide, by decide, by decide,
    Get_miss_populates demoProvider 3 0 [] [] [] [] [3] none 40 (some 9)
      (by decide) (by decide) (by decide)⟩

/-- C4 (provider failure): if `Cache.Get(K, parameters)` returns an error and the
underlying provider's `Get(source, parameters)` returns error `E`, then `Provider.Get`
returns `(nil, E)` with `E` the provider's own error value, and `Cache.Set` is not
invoked. -/
theorem Get_provider_failure (provider : Provider W Src Par Img Err) (source : Src)
    (parameters : Par) (w w1 w2 w3 : W) (K : GoString) (i : Option Img) (e : Err)
    (j : Option Img) (E : Err)
    (hK : provider.KeyGenerator.GetKey source parameters w = (K, w1))
    (hGet : provider.Cache.Get K parameters w1 = ((i, some e), w2))
    (hProv : provider.Inner.Get source parameters w2 = ((j, some E), w3)) :
    provider.Get source parameters w = ((none, some E), w3) ∧
      provider.recorded.Get source parameters (w, []) =
        ((none, some E), (w3, [Call.getKey source parameters, Call.cacheGet K parameters,
          Call.providerGet source parameters])) ∧
      (provider.recorded.Get source parameters (w, [])).2.2.filter Call.isCacheSet = [] := by
  simp [Provider.Get, Provider.recorded, hK, hGet, hProv, Call.isCacheSet]

/-- Witness of C4 on the demo provider: source `0` is absent from the store and the
provider fails on it with error `60`. -/
theorem Get_provider_failure_witness :
    demoProvider.KeyGenerator.GetKey 0 0 [([1], 7)] = ([0], [([1], 7)]) ∧
      demoProvider.Cache.Get [0] 0 [([1], 7)] = ((none, some 40), [([1], 7)]) ∧
      demoProvider.Inner.Get 0 0 [([1], 7)] = ((none, some 60), [([1], 7)]) ∧
      demoProvider.Get 0 0 [([1], 7)] = ((none, some 60), [([1], 7)]) ∧
      demoProvider.recorded.Get 0 0 ([([1], 7)], []) =
        ((none, some 60), ([([1], 7)], [Call.getKey 0 0, Call.cacheGet [0] 0,
          Call.providerGet 0 0])) ∧
      (demoProvider.recorded.Get 0 0 ([([1], 7)], [])).2.2.filter Call.isCacheSet = [] :=
  ⟨by decide, by decide, by decide,
    Get_provider_failure demoProvider 0 0 [([1], 7)] [([1], 7)] [([1], 7)] [([1], 7)] [0]
      none 40 none 60 (by decide) (by decide) (by decide)⟩

/-- C5 (store failure): if `Cache.Get(K, parameters)` returns an error, the underlying
provider returns image `J` with a nil error and `Cache.Set(K, J, parameters)` returns
error `F`, then `Provider.Get` returns `(nil, F)`: the error is `F` and the image
component is nil, not `J`. -/
theorem Get_store_failure (provider : Provider W Src Par Img Err) (source : Src)
    (parameters : Par) (w w1 w2 w3 w4 : W) (K : GoString) (i : Option Img) (e : Err)
    (J : Option Img) (F : Err)
    (hK : provider.KeyGenerator.GetKey source parameters w = (K, w1))
    (hGet : provider.Cache.Get K parameters w1 = ((i, some e), w2))
    (hProv : provider.Inner.Get source parameters w2 = ((J, none), w3))
    (hSet : provider.Cache.Set K J parameters w3 = (some F, w4)) :
    provider.Get source parameters w = ((none, some F), w4) ∧
      (provider.Get source parameters w).1.2 = some F ∧
      (provider.Get source parameters w).1.1 = none := by
  simp [Provider.Get, hK, hGet, hProv, hSet]

/-- Witness of C5 on the demo provider: for source `3` the provider returns image `9`,
which the store refuses with error `50`. -/
theorem Get_store_failure_witness :
    demoProvider.KeyGenerator.GetKey 3 0 [] = ([3], []) ∧
      demoProvider.Cache.Get [3] 0 [] = ((none, some 40), []) ∧
      demoProvider.Inner.Get 3 0 [] = ((some 9, none), []) ∧
      demoProvider.Cache.Set [3] (some 9) 0 [] = (some 50, []) ∧
      demoProvider.Get 3 0 [] = ((none, some 50), []) ∧
      (demoProvider.Get 3 0 []).1.2 = some 50 ∧
      (demoProvider.Get 3 0 []).1.1 = none :=
  ⟨by decide, by decide, by decide, by decide,
    Get_store_failure demoProvider 3 0 [] [] [] [] [] [3] none 40 (some 9) 50
      (by decide) (by decide) (by decide) (by decide)⟩

/-- C6 (uniform miss): take two runs with the same key generator, underlying provider
and `Cache.Set`, the same source, parameters and starting world, whose `Cache.Get`
answers the derived key with errors `e1` and `e2` (and whatever images) and leaves the
same world. Both runs return the same result, leave the same world and make the same
collaborator calls with the same arguments. The returned error is the one of the
underlying provider when it fails and the one of `Cache.Set` otherwise; so when
`e1` and `e2` differ, the runs cannot both return their cache read error. -/
theorem Get_uniform_miss (keyGenerator : KeyGenerator W Src Par)
    (inner : ImageProvider W Src Par Img Err)
    (get1 get2 : GoString → Par → W → ImageResult Img Err × W)
    (set : GoString → Option Img → Par → W → Option Err × W)
    (source : Src) (parameters : Par) (w w1 w2 : W) (K : GoString)
    (i1 i2 : Option Img) (e1 e2 : Err)
    (hK : keyGenerator.GetKey source parameters w = (K, w1))
    (hGet1 : get1 K parameters w1 = ((i1, some e1), w2))
    (hGet2 : get2 K parameters w1 = ((i2, some e2), w2)) :
    (Provider.mk inner ⟨get1, set⟩ keyGenerator).recorded.Get source parameters (w, []) =
        (Provider.mk inner ⟨get2, set⟩ keyGenerator).recorded.Get source parameters (w, []) ∧
      (Provider.mk inner ⟨get1, set⟩ keyGenerator).Get source parameters w =
        (Provider.mk inner ⟨get2, set⟩ keyGenerator).Get source parameters w ∧
      ((Provider.mk inner ⟨get1, set⟩ keyGenerator).Get source parameters w).1.2 =
        (inner.Get source parameters w2).1.2.or
          (set K (inner.Get source parameters w2).1.1 parameters
            (inner.Get source parameters w2).2).1 ∧
      (e1 ≠ e2 →
        ¬ (((Provider.mk inner ⟨get1, set⟩ keyGenerator).Get source parameters w).1.2 = some e1 ∧
          ((Provider.mk inner ⟨get2, set⟩ keyGenerator).Get source parameters w).1.2
            = some e2)) := by
  have hplain : (Provider.mk inner ⟨get1, set⟩ keyGenerator).Get source parameters w =
      (Provider.mk inner ⟨get2, set⟩ keyGenerator).Get source parameters w := by
    simp [Provider.Get, hK, hGet1, hGet2]
  refine ⟨?_, hplain, ?_, ?_⟩
  · simp [Provider.Get, Provider.recorded, hK, hGet1, hGet2]
  · rcases hP : inner.Get source parameters w2 with ⟨⟨j, e3⟩, w3⟩
    cases e3 with
    | some e3 => simp [Provider.Get, hK, hGet1, hP]
    | none =>
      rcases hS : set K j parameters w3 with ⟨e4, w4⟩
      cases e4 <;> simp [Provider.Get, hK, hGet1, hP, hS]
  · intro hne hboth
    rw [hplain, hboth.2] at hboth
    exact hne (Option.some.inj hboth.1).symm

/-- Witness of C6: the demo cache answering the absent key `[2]` with error `40`
("not found") in one run and with error `41` in the other. -/
theorem Get_uniform_miss_witness :
    (demoKeyGenerator.GetKey 2 0 ([] : List (GoString × Nat)) = ([2], [])) ∧
      demoCache.Get [2] 0 [] = ((none, some 40), []) ∧
      demoCacheOutage.Get [2] 0 [] = ((none, some 41), []) ∧
      (Provider.mk demoImageProvider ⟨demoCache.Get, demoCache.Set⟩
          demoKeyGenerator).recorded.Get 2 0 ([], []) =
        (Provider.mk demoImageProvider ⟨demoCacheOutage.Get, demoCache.Set⟩
          demoKeyGenerator).recorded.Get 2 0 ([], []) ∧
      (Provider.mk demoImageProvider ⟨demoCache.Get, demoCache.Set⟩ demoKeyGenerator).Get 2 0 [] =
        (Provider.mk demoImageProvider ⟨demoCacheOutage.Get, demoCache.Set⟩
          demoKeyGenerator).Get 2 0 [] ∧
      ((Provider.mk demoImageProvider ⟨demoCache.Get, demoCache.Set⟩
          demoKeyGenerator).Get 2 0 []).1.2 =
        (demoImageProvider.Get 2 0 ([] : List (GoString × Nat))).1.2.or
          (demoCache.Set [2] (demoImageProvider.Get 2 0 ([] : List (GoString × Nat))).1.1 0
            (demoImageProvider.Get 2 0 []).2).1 ∧
      ((40 : Nat) ≠ 41 →
        ¬ (((Provider.mk demoImageProvider ⟨demoCache.Get, demoCache.Set⟩
            demoKeyGenerator).Get 2 0 []).1.2 = some 40 ∧
          ((Provider.mk demoImageProvider ⟨demoCacheOutage.Get, demoCache.Set⟩
            demoKeyGenerator).Get 2 0 []).1.2 = some 41)) :=
  ⟨by decide, by decide, by decide,
    Get_uniform_miss demoKeyGenerator demoImageProvider demoCache.Get demoCacheOutage.Get
      demoCache.Set 2 0 [] [] [] [2] none none 40 41 (by decide) (by decide) (by decide)⟩

/-- C11 (call order, no retries): in every call of `Provider.Get` the collaborator
calls are, in this order: `GetKey(source, parameters)`; `Cache.Get` with the derived
key and the caller's parameters; then, only when `Cache.Get` returned an error, the
provider's `Get(source, parameters)`; then, only when moreover the provider returned a
nil error, `Cache.Set` with the derived key, the provider's image and the caller's
parameters. So `GetKey` and `Cache.Get` are invoked exactly once, the provider's `Get`
and `Cache.Set` once or not at all, and nothing is invoked a second time. -/
theorem Get_call_order (provider : Provider W Src Par Img Err) (source : Src)
    (parameters : Par) (w : W) :
    (provider.recorded.Get source parameters (w, [])).2.2 =
        [Call.getKey source parameters,
          Call.cacheGet (provider.KeyGenerator.GetKey source parameters w).1 parameters] ++
        (if (provider.Cache.Get (provider.KeyGenerator.GetKey source parameters w).1 parameters
            (provider.KeyGenerator.GetKey source parameters w).2).1.2.isSome then
          Call.providerGet source parameters ::
            (if (provider.Inner.Get source parameters
                (provider.Cache.Get (provider.KeyGenerator.GetKey source parameters w).1
                  parameters (provider.KeyGenerator.GetKey source parameters w).2).2).1.2.isNone
              then
                [Call.cacheSet (provider.KeyGenerator.GetKey source parameters w).1
                  (provider.Inner.Get source parameters
                    (provider.Cache.Get (provider.KeyGenerator.GetKey source parameters w).1
                      parameters (provider.KeyGenerator.GetKey source parameters w).2).2).1.1
                  parameters]
              else [])
        else []) ∧
      ((provider.recorded.Get source parameters (w, [])).2.2.filter Call.isGetKey).length = 1 ∧
      ((provider.recorded.Get source parameters (w, [])).2.2.filter Call.isCacheGet).length = 1 ∧
      ((provider.recorded.Get source parameters (w, [])).2.2.filter Call.isProviderGet).length =
        (if (provider.Cache.Get (provider.KeyGenerator.GetKey source parameters w).1 parameters
            (provider.KeyGenerator.GetKey source parameters w).2).1.2.isSome then 1 else 0) ∧
      ((provider.recorded.Get source parameters (w, [])).2.2.filter Call.isCacheSet).length =
        (if (provider.Cache.Get (provider.KeyGenerator.GetKey source parameters w).1 parameters
              (provider.KeyGenerator.GetKey source parameters w).2).1.2.isSome ∧
            (provider.Inner.Get source parameters
              (provider.Cache.Get (provider.KeyGenerator.GetKey source parameters w).1
                parameters (provider.KeyGenerator.GetKey source parameters w).2).2).1.2.isNone
          then 1 else 0) := by
  rcases hK : provider.KeyGenerator.GetKey source parameters w with ⟨k, w1⟩
  rcases hG : provider.Cache.Get k parameters w1 with ⟨⟨i, e⟩, w2⟩
  cases e with
  | none =>
    simp [Provider.Get, Provider.recorded, hK, hG, Call.isGetKey, Call.isCacheGet,
      Call.isProviderGet, Call.isCacheSet]
  | some e =>
    rcases hP : provider.Inner.Get source parameters w2 with ⟨⟨j, e2⟩, w3⟩
    cases e2 with
    | some e2 =>
      simp [Provider.Get, Provider.recorded, hK, hG, hP, Call.isGetKey, Call.isCacheGet,
        Call.isProviderGet, Call.isCacheSet]
    | none =>
      rcases hS : provider.Cache.Set k j parameters w3 with ⟨e3, w4⟩
      cases e3 <;>
        simp [Provider.Get, Provider.recorded, hK, hG, hP, hS, Call.isGetKey, Call.isCacheGet,
          Call.isProviderGet, Call.isCacheSet]

/-- C16 (hit decided by the error alone): whatever value `v` `Cache.Get` returns as
image, the nil pointer included, when its error is nil `Provider.Get` returns `(v, nil)`
and invokes neither the underlying provider nor `Cache.Set`. -/
theorem Get_hit_any_image (provider : Provider W Src Par Img Err) (source : Src)
    (parameters : Par) (w w1 w2 : W) (K : GoString) (v : Option Img)
    (hK : provider.KeyGenerator.GetKey source parameters w = (K, w1))
    (hGet : provider.Cache.Get K parameters w1 = ((v, none), w2)) :
    provider.Get source parameters w = ((v, none), w2) ∧
      (provider.recorded.Get source parameters (w, [])).1 = (v, none) ∧
      (provider.recorded.Get source parameters (w, [])).2.2.filter Call.isProviderGet = [] ∧
      (provider.recorded.Get source parameters (w, [])).2.2.filter Call.isCacheSet = [] := by
  simp [Provider.Get, Provider.recorded, hK, hGet, Call.isProviderGet, Call.isCacheSet]

/-- Witness of C16: a cache answering `(nil, nil)` makes the call return `(nil, nil)`,
although the underlying provider would have returned image `8`. -/
theorem Get_hit_any_image_witness :
    (demoKeyGenerator.GetKey 2 0 ([] : List (GoString × Nat)) = ([2], [])) ∧
      demoNilCache.Get [2] 0 [] = ((none, none), []) ∧
      (Provider.mk demoImageProvider demoNilCache demoKeyGenerator).Get 2 0 [] =
        ((none, none), []) ∧
      ((Provider.mk demoImageProvider demoNilCache demoKeyGenerator).recorded.Get 2 0
        ([], [])).1 = (none, none) ∧
      ((Provider.mk demoImageProvider demoNilCache demoKeyGenerator).recorded.Get 2 0
        ([], [])).2.2.filter Call.isProviderGet = [] ∧
      ((Provider.mk demoImageProvider demoNilCache demoKeyGenerator).recorded.Get 2 0
        ([], [])).2.2.filter Call.isCacheSet = [] :=
  ⟨by decide, by decide,
    Get_hit_any_image (Provider.mk demoImageProvider demoNilCache demoKeyGenerator) 2 0
      [] [] [] [2] none (by decide) (by decide)⟩

end ProviderGet

/-! ## Theorems on the key generators -/

section KeyGenerators

variable {W H Src Par : Type}

/-- C7 (prefix composition): `(&PrefixKeyGenerator{KeyGenerator: g, Prefix: p}).GetKey(s,
params)` is the concatenation `p + g.GetKey(s, params)`, the world is the one `g`
leaves, and `g.GetKey` is invoked exactly once, on `(s, params)`. -/
theorem PrefixKeyGenerator_GetKey_eq (p : GoString) (g : KeyGenerator W Src Par) (s : Src)
    (params : Par) (w : W) :
    (PrefixKeyGenerator.mk g p).GetKey s params w =
        (p ++ (g.GetKey s params w).1, (g.GetKey s params w).2) ∧
      (PrefixKeyGenerator.mk g.recorded p).GetKey s params (w, []) =
        (p ++ (g.GetKey s params w).1, ((g.GetKey s params w).2, [(s, params)])) := by
  constructor
  · simp [PrefixKeyGenerator.GetKey]
  · simp [PrefixKeyGenerator.GetKey, KeyGenerator.recorded]

/-- C8 (hash-based key): on a generator whose pool holds only accumulators in their
initial state (in particular on the generator as `NewSourceHashKeyGenerator` returns
it, whose pool is empty), `GetKey(s, params)` returns `hex.EncodeToString(d)` where `d`
is `Sum(nil)` of an accumulator in its initial state after one `Write` of the bytes of
`fmt.Sprint(s)`. On the new generator the methods invoked on the accumulator are
`Write(fmt.Sprint(s))`, `Sum(nil)`, `Reset()`, in this order and nothing else. -/
theorem NewSourceHashKeyGenerator_GetKey_eq (hash : Hash H) (Sprint : Src → GoString)
    (newHashFunc : Unit → H) (s : Src) (params : Par) (pool : SyncPool H)
    (hclean : ∀ h ∈ pool.items, h = newHashFunc ()) :
    ((NewSourceHashKeyGenerator hash Sprint newHashFunc).GetKey s params pool).1 =
        EncodeToString (hash.Sum (hash.Write (newHashFunc ()) (Sprint s)) []).1 ∧
      ∀ sched : List PoolDecision,
        (NewSourceHashKeyGenerator hash.recorded Sprint (fun _ => (newHashFunc (), []))).GetKey
            s params (SyncPool.new sched) =
          (EncodeToString (hash.Sum (hash.Write (newHashFunc ()) (Sprint s)) []).1,
            { items := [(hash.Reset (hash.Sum (hash.Write (newHashFunc ()) (Sprint s)) []).2,
                [HashOp.write (Sprint s), HashOp.sum [], HashOp.reset])],
              sched := sched.tail }) := by
  constructor
  · exact GetKey_of_clean hash Sprint newHashFunc s params pool hclean
  · intro sched
    simp only [NewSourceHashKeyGenerator, KeyGeneratorFunc.toKeyGenerator,
      KeyGeneratorFunc.GetKey, SyncPool.Get_new]
    simp [WriteString, SyncPool.Put, SyncPool.new, Hash.recorded]

/-- Witness of C8 on the toy hash: the pool stores one accumulator in its initial
state, which the runtime hands out; the source `[1, 2, 255]` has digest `[2]` and
key `"02"`. -/
theorem NewSourceHashKeyGenerator_GetKey_eq_witness :
    (∀ h ∈ (SyncPool.mk [[]] [⟨[], some 0⟩] : SyncPool (List Byte)).items, h = newSumHash ()) ∧
      ((NewSourceHashKeyGenerator sumHash (fun s => s) newSumHash).GetKey
          ([1, 2, 255] : GoString) (0 : Nat) (SyncPool.mk [[]] [⟨[], some 0⟩])).1 =
        EncodeToString (sumHash.Sum (sumHash.Write (newSumHash ()) [1, 2, 255]) []).1 ∧
      ((NewSourceHashKeyGenerator sumHash (fun s => s) newSumHash).GetKey
          ([1, 2, 255] : GoString) (0 : Nat) (SyncPool.mk [[]] [⟨[], some 0⟩])).1 = [48, 50] :=
  ⟨by decide,
    (NewSourceHashKeyGenerator_GetKey_eq sumHash (fun s => s) newSumHash ([1, 2, 255] : GoString)
      (0 : Nat) (SyncPool.mk [[]] [⟨[], some 0⟩]) (by decide)).1,
    by decide⟩

/-- C9 (parameter independence): from any state of the pool, the hash-based generator
returns the same key (and leaves the same pool) for `(s, params1)` and `(s, params2)`;
and two sequences of calls over the same sources, differing in the parameters of each
call, return the same keys. -/
theorem NewSourceHashKeyGenerator_GetKey_params (hash : Hash H) (Sprint : Src → GoString)
    (newHashFunc : Unit → H) (s : Src) (params1 params2 : Par) (pool : SyncPool H) :
    (NewSourceHashKeyGenerator hash Sprint newHashFunc).GetKey s params1 pool =
        (NewSourceHashKeyGenerator hash Sprint newHashFunc).GetKey s params2 pool ∧
      ∀ (calls : List (Src × Par × Par)) (pool : SyncPool H),
        (NewSourceHashKeyGenerator hash Sprint newHashFunc).GetKeys
            (calls.map (fun c => (c.1, c.2.1))) pool =
          (NewSourceHashKeyGenerator hash Sprint newHashFunc).GetKeys
            (calls.map (fun c => (c.1, c.2.2))) pool := by
  refine ⟨rfl, ?_⟩
  intro calls
  induction calls with
  | nil => intro pool; rfl
  | cons c rest ih =>
    intro pool
    have hstep : (NewSourceHashKeyGenerator hash Sprint newHashFunc).GetKey c.1 c.2.1 pool =
        (NewSourceHashKeyGenerator hash Sprint newHashFunc).GetKey c.1 c.2.2 pool := rfl
    rw [List.map_cons, List.map_cons, KeyGenerator.GetKeys_cons, KeyGenerator.GetKeys_cons,
      hstep, ih]

/-- C10 (determinism across reuse): when `Reset` restores the initial state, every
finite sequence of sequential `GetKey` calls on one hash-based generator, started with
its empty pool and under every behaviour of the pool (handing out a stored accumulator
or a new one, discarding stored ones), returns for each call the key that the first
call on a new generator returns for the call's source. The assumption on `Sum(nil)` is
not needed, since `Reset` follows `Sum`. -/
theorem NewSourceHashKeyGenerator_GetKeys_deterministic (hash : Hash H)
    (Sprint : Src → GoString) (newHashFunc : Unit → H)
    (hReset : ∀ h, hash.Reset h = newHashFunc ())
    (calls : List (Src × Par)) (sched sched0 : List PoolDecision) :
    ((NewSourceHashKeyGenerator hash Sprint newHashFunc).GetKeys calls
        (SyncPool.new sched)).1 =
      calls.map (fun c => ((NewSourceHashKeyGenerator hash Sprint newHashFunc).GetKey
        c.1 c.2 (SyncPool.new sched0)).1) := by
  rw [GetKeys_of_clean hash Sprint newHashFunc hReset calls (SyncPool.new sched)
    (by simp [SyncPool.new])]
  apply List.map_congr_left
  intro c _
  exact (GetKey_of_clean hash Sprint newHashFunc c.1 c.2 (SyncPool.new sched0)
    (by simp [SyncPool.new])).symm

/-- Witness of C10 on the toy hash: three calls, the second reusing the accumulator
the first put back, the third creating a new one after the runtime discarded the
stored one; the first and the third, for the same source, return `"02"`. -/
theorem NewSourceHashKeyGenerator_GetKeys_deterministic_witness :
    (∀ h, sumHash.Reset h = newSumHash ()) ∧
      ((NewSourceHashKeyGenerator sumHash (fun s => s) newSumHash).GetKeys
          [(([1, 2, 255] : GoString), (0 : Nat)), ([7], 1), ([1, 2, 255], 5)]
          (SyncPool.new [⟨[], none⟩, ⟨[], some 0⟩, ⟨[0], some 0⟩])).1 =
        [(([1, 2, 255] : GoString), (0 : Nat)), ([7], 1), ([1, 2, 255], 5)].map
          (fun c => ((NewSourceHashKeyGenerator sumHash (fun s => s) newSumHash).GetKey
            c.1 c.2 (SyncPool.new [])).1) ∧
      ((NewSourceHashKeyGenerator sumHash (fun s => s) newSumHash).GetKeys
          [(([1, 2, 255] : GoString), (0 : Nat)), ([7], 1), ([1, 2, 255], 5)]
          (SyncPool.new [⟨[], none⟩, ⟨[], some 0⟩, ⟨[0], some 0⟩])).1 =
        [[48, 50], [48, 55], [48, 50]] :=
  ⟨fun _ => rfl,
    NewSourceHashKeyGenerator_GetKeys_deterministic sumHash (fun s => s) newSumHash
      (fun _ => rfl) _ _ _,
    by decide⟩

/-- The assumption of C10 on `Reset` matters: with a hash whose `Reset` keeps the bytes
written, a reused accumulator carries the bytes of the first source into the second
key. -/
theorem GetKeys_sticky_leaks :
    ((NewSourceHashKeyGenerator stickyHash (fun s => s) newSumHash).GetKeys
        [(([1] : GoString), (0 : Nat)), ([1], 0)]
        (SyncPool.new [⟨[], none⟩, ⟨[], some 0⟩])).1 = [[48, 49], [48, 50]] := by
  decide

/-- C12 (key equality mirrors digest equality): on a hash-based generator whose
`Reset` restores the initial state, in whatever state earlier calls and the pool have
left it, the keys for sources `s1` and `s2` are equal if and only if the digests of
`fmt.Sprint(s1)` and `fmt.Sprint(s2)` are equal. Hence sources with the same text
always get the same key, and sources whose texts have different digests always get
different keys. In particular, in any sequence of calls on one new generator, the
keys returned by a call for `s1` and a call for `s2` are equal if and only if the
digests are. -/
theorem NewSourceHashKeyGenerator_GetKey_eq_iff (hash : Hash H) (Sprint : Src → GoString)
    (newHashFunc : Unit → H) (hReset : ∀ h, hash.Reset h = newHashFunc ())
    (calls1 calls2 : List (Src × Par)) (sched1 sched2 : List PoolDecision)
    (s1 s2 : Src) (params1 params2 : Par) :
    (((NewSourceHashKeyGenerator hash Sprint newHashFunc).GetKey s1 params1
            ((NewSourceHashKeyGenerator hash Sprint newHashFunc).GetKeys calls1
              (SyncPool.new sched1)).2).1 =
          ((NewSourceHashKeyGenerator hash Sprint newHashFunc).GetKey s2 params2
            ((NewSourceHashKeyGenerator hash Sprint newHashFunc).GetKeys calls2
              (SyncPool.new sched2)).2).1 ↔
        freshDigest hash newHashFunc (Sprint s1) = freshDigest hash newHashFunc (Sprint s2)) ∧
      (Sprint s1 = Sprint s2 →
        ((NewSourceHashKeyGenerator hash Sprint newHashFunc).GetKey s1 params1
            ((NewSourceHashKeyGenerator hash Sprint newHashFunc).GetKeys calls1
              (SyncPool.new sched1)).2).1 =
          ((NewSourceHashKeyGenerator hash Sprint newHashFunc).GetKey s2 params2
            ((NewSourceHashKeyGenerator hash Sprint newHashFunc).GetKeys calls2
              (SyncPool.new sched2)).2).1) ∧
      (freshDigest hash newHashFunc (Sprint s1) ≠ freshDigest hash newHashFunc (Sprint s2) →
        ((NewSourceHashKeyGenerator hash Sprint newHashFunc).GetKey s1 params1
            ((NewSourceHashKeyGenerator hash Sprint newHashFunc).GetKeys calls1
              (SyncPool.new sched1)).2).1 ≠
          ((NewSourceHashKeyGenerator hash Sprint newHashFunc).GetKey s2 params2
            ((NewSourceHashKeyGenerator hash Sprint newHashFunc).GetKeys calls2
              (SyncPool.new sched2)).2).1) ∧
      (∀ (calls : List (Src × Par)) (sched : List PoolDecision) (i j : Nat),
        calls[i]? = some (s1, params1) → calls[j]? = some (s2, params2) →
          ((((NewSourceHashKeyGenerator hash Sprint newHashFunc).GetKeys calls
                (SyncPool.new sched)).1)[i]? =
              (((NewSourceHashKeyGenerator hash Sprint newHashFunc).GetKeys calls
                (SyncPool.new sched)).1)[j]? ↔
            freshDigest hash newHashFunc (Sprint s1) =
              freshDigest hash newHashFunc (Sprint s2))) := by
  have hnew : ∀ sched : List PoolDecision,
      ∀ h ∈ (SyncPool.new sched : SyncPool H).items, h = newHashFunc () :=
    fun sched => by simp [SyncPool.new]
  rw [GetKey_of_clean hash Sprint newHashFunc s1 params1 _
      (GetKeys_preserves_clean hash Sprint newHashFunc hReset calls1 _ (hnew sched1)),
    GetKey_of_clean hash Sprint newHashFunc s2 params2 _
      (GetKeys_preserves_clean hash Sprint newHashFunc hReset calls2 _ (hnew sched2))]
  refine ⟨⟨fun h => EncodeToString_injective _ _ h, fun h => by rw [h]⟩, ?_, ?_, ?_⟩
  · intro h
    rw [h]
  · intro hne h
    exact hne (EncodeToString_injective _ _ h)
  · intro calls sched i j hi hj
    rw [GetKeys_of_clean hash Sprint newHashFunc hReset calls _ (hnew sched),
      List.getElem?_map, List.getElem?_map, hi, hj]
    simp only [Option.map_some', Option.some.injEq]
    exact ⟨fun h => EncodeToString_injective _ _ h, fun h => by rw [h]⟩

/-- Witness of C12 on the toy hash: on one generator, a call for the integer `1` and
then a call for the string `"1"`, which reuses the accumulator of the first. Both
sources have the text `"1"`, hence the same digest, and both calls return the key
`"31"`. -/
theorem NewSourceHashKeyGenerator_GetKey_eq_iff_witness :
    (∀ h, sumHash.Reset h = newSumHash ()) ∧
      demoSprint (DemoSource.int 1) = demoSprint (DemoSource.str [49]) ∧
      ((NewSourceHashKeyGenerator sumHash demoSprint newSumHash).GetKey (DemoSource.int 1)
          (0 : Nat)
          ((NewSourceHashKeyGenerator sumHash demoSprint newSumHash).GetKeys
            ([] : List (DemoSource × Nat))
            (SyncPool.new [⟨[], none⟩, ⟨[], some 0⟩])).2).1 =
        ((NewSourceHashKeyGenerator sumHash demoSprint newSumHash).GetKey
          (DemoSource.str [49]) (7 : Nat)
          ((NewSourceHashKeyGenerator sumHash demoSprint newSumHash).GetKeys
            [(DemoSource.int 1, (0 : Nat))]
            (SyncPool.new [⟨[], none⟩, ⟨[], some 0⟩])).2).1 ∧
      ((NewSourceHashKeyGenerator sumHash demoSprint newSumHash).GetKeys
          [(DemoSource.int 1, (0 : Nat)), (DemoSource.str [49], 7)]
          (SyncPool.new [⟨[], none⟩, ⟨[], some 0⟩])).1 = [[51, 49], [51, 49]] :=
  ⟨fun _ => rfl, by decide,
    (NewSourceHashKeyGenerator_GetKey_eq_iff sumHash demoSprint newSumHash (fun _ => rfl)
      [] [(DemoSource.int 1, (0 : Nat))] [⟨[], none⟩, ⟨[], some 0⟩] [⟨[], none⟩, ⟨[], some 0⟩]
      (DemoSource.int 1) (DemoSource.str [49]) (0 : Nat) (7 : Nat)).2.1 (by decide),
    by decide⟩

/-- C13 (prefix nesting): for a list of prefixes `[p1, ..., pn]`, possibly empty, and an
inner generator `g`, the generator wrapping `g` with `pn`, then `p(n-1)`, ..., outermost
`p1`, returns the key `p1 + ... + pn + g.GetKey(s, params)` and leaves the world `g`
leaves, invoking `g.GetKey` once on `(s, params)`. The inner key is a suffix of the
composed key, whose length is the sum of the lengths of the prefixes plus the length
of the inner key. -/
theorem nestPrefixes_GetKey_eq (prefixes : List GoString) (g : KeyGenerator W Src Par)
    (s : Src) (params : Par) (w : W) :
    (nestPrefixes prefixes g).GetKey s params w =
        (prefixes.flatten ++ (g.GetKey s params w).1, (g.GetKey s params w).2) ∧
      (g.GetKey s params w).1 <:+ ((nestPrefixes prefixes g).GetKey s params w).1 ∧
      ((nestPrefixes prefixes g).GetKey s params w).1.length =
        (prefixes.map List.length).sum + (g.GetKey s params w).1.length ∧
      ((nestPrefixes prefixes g.recorded).GetKey s params (w, [])).2.2 = [(s, params)] := by
  refine ⟨nestPrefixes_GetKey prefixes g s params w, ?_, ?_, ?_⟩
  · rw [nestPrefixes_GetKey]
    exact List.suffix_append _ _
  · rw [nestPrefixes_GetKey]
    simp [List.length_flatten]
  · rw [nestPrefixes_GetKey]
    simp [KeyGenerator.recorded]

/-- C17 (key shape): from any state of the pool, the key of the hash-based generator
consists of characters `0`-`9`, `a`-`f` only, and its length is twice the length of
the digest that `Sum(nil)` returned in the call. For a hash whose digests all have `n`
bytes, every key has `2n` characters, whatever the length of the source's text. -/
theorem NewSourceHashKeyGenerator_GetKey_shape (hash : Hash H) (Sprint : Src → GoString)
    (newHashFunc : Unit → H) (s : Src) (params : Par) (pool : SyncPool H) :
    (∀ c ∈ ((NewSourceHashKeyGenerator hash Sprint newHashFunc).GetKey s params pool).1,
        isLowerHex c = true) ∧
      ((NewSourceHashKeyGenerator hash Sprint newHashFunc).GetKey s params pool).1.length =
        2 * (hash.Sum (hash.Write (pool.Get (fun _ => newHashFunc ())).1 (Sprint s))
          []).1.length ∧
      ∀ n : Nat, (∀ h : H, (hash.Sum h []).1.length = n) →
        ((NewSourceHashKeyGenerator hash Sprint newHashFunc).GetKey s params pool).1.length =
          2 * n := by
  rw [GetKey_eq_encode]
  refine ⟨EncodeToString_isLowerHex _, EncodeToString_length _, ?_⟩
  intro n hn
  rw [EncodeToString_length, hn]

/-- Witness of C17 on the toy hash, whose digests have one byte: the key of a
three-byte source has two characters, here `"ff"`. -/
theorem NewSourceHashKeyGenerator_GetKey_shape_witness :
    (∀ h : List Byte, (sumHash.Sum h []).1.length = 1) ∧
      ((NewSourceHashKeyGenerator sumHash (fun s => s) newSumHash).GetKey
          ([250, 2, 3] : GoString) (0 : Nat) (SyncPool.new [])).1.length = 2 * 1 ∧
      ((NewSourceHashKeyGenerator sumHash (fun s => s) newSumHash).GetKey
          ([250, 2, 3] : GoString) (0 : Nat) (SyncPool.new [])).1 = [102, 102] :=
  ⟨fun _ => rfl,
    (NewSourceHashKeyGenerator_GetKey_shape sumHash (fun s => s) newSumHash
      ([250, 2, 3] : GoString) (0 : Nat) (SyncPool.new [])).2.2 1 (fun _ => rfl),
    by decide⟩

/-- C15 (clean-pool invariant): call a pool clean when `Reset` is the last method
invoked on every accumulator it stores. The pool a new generator starts with is clean.
A `GetKey` call on a clean pool leaves a clean pool: it puts back one accumulator, the
one handed out by `Get`, after `Write`, `Sum(nil)` and `Reset` in this order, and
touches no other. The pool as `Get` alone leaves it (a call that stopped midway) is
clean and stores only accumulators stored before, the one handed out taken out of
them. Every pool reached by sequential calls from the new generator is clean; and when
`Reset` restores the initial state, every accumulator in such a pool is in the initial
state. -/
theorem NewSourceHashKeyGenerator_pool_clean (hash : Hash H) (Sprint : Src → GoString)
    (newHashFunc : Unit → H) (s : Src) (params : Par) (pool : SyncPool (H × List HashOp))
    (hclean : pool.isClean = true) :
    (∀ sched, (SyncPool.new sched : SyncPool (H × List HashOp)).isClean = true) ∧
      ((recordedHashKeyGenerator hash Sprint newHashFunc).GetKey s params pool).2.isClean
        = true ∧
      ((recordedHashKeyGenerator hash Sprint newHashFunc).GetKey s params pool).2.items =
        (hash.Reset (hash.Sum (hash.Write
            (pool.Get (fun _ => (newHashFunc (), []))).1.1 (Sprint s)) []).2,
          (pool.Get (fun _ => (newHashFunc (), []))).1.2 ++
            [HashOp.write (Sprint s), HashOp.sum [], HashOp.reset]) ::
          (pool.Get (fun _ => (newHashFunc (), []))).2.items ∧
      (pool.Get (fun _ => (newHashFunc (), ([] : List HashOp)))).2.isClean = true ∧
      (pool.Get (fun _ => (newHashFunc (), ([] : List HashOp)))).2.items.Sublist pool.items ∧
      ((pool.Get (fun _ => (newHashFunc (), ([] : List HashOp)))).1 = (newHashFunc (), []) ∨
        ((pool.Get (fun _ => (newHashFunc (), ([] : List HashOp)))).1 ::
          (pool.Get (fun _ => (newHashFunc (), ([] : List HashOp)))).2.items).Subperm
            pool.items) ∧
      (∀ (calls : List (Src × Par)) (sched : List PoolDecision),
        ((recordedHashKeyGenerator hash Sprint newHashFunc).GetKeys calls
          (SyncPool.new sched)).2.isClean = true) ∧
      ((∀ h, hash.Reset h = newHashFunc ()) →
        ∀ (calls : List (Src × Par)) (sched : List PoolDecision),
          ∀ h ∈ ((NewSourceHashKeyGenerator hash Sprint newHashFunc).GetKeys calls
            (SyncPool.new sched)).2.items, h = newHashFunc ()) := by
  refine ⟨fun sched => rfl,
    recordedHashKeyGenerator_clean hash Sprint newHashFunc s params pool hclean,
    recordedHashKeyGenerator_items hash Sprint newHashFunc s params pool, ?_,
    (SyncPool.Get_removes _ pool).1, (SyncPool.Get_removes _ pool).2, ?_, ?_⟩
  · rw [SyncPool.isClean_iff] at hclean ⊢
    intro a ha
    exact hclean a ((SyncPool.Get_spec _ pool).2 a ha)
  · intro calls sched
    exact recordedHashKeyGenerator_GetKeys_clean hash Sprint newHashFunc calls _ rfl
  · intro hReset calls sched
    exact GetKeys_preserves_clean hash Sprint newHashFunc hReset calls _
      (by simp [SyncPool.new])

/-- Witness of C15 on the toy hash: the pool stores the accumulator of an earlier call
for source `[1]`; the call for source `[7]` reuses it and puts it back reset. -/
theorem NewSourceHashKeyGenerator_pool_clean_witness :
    (SyncPool.mk [(([] : List Byte), [HashOp.write [1], HashOp.sum [], HashOp.reset])]
        [⟨[], some 0⟩]).isClean = true ∧
      ((recordedHashKeyGenerator sumHash (fun s => s) newSumHash).GetKey ([7] : GoString)
        (0 : Nat) (SyncPool.mk
          [(([] : List Byte), [HashOp.write [1], HashOp.sum [], HashOp.reset])]
          [⟨[], some 0⟩])).2.isClean = true ∧
      ((recordedHashKeyGenerator sumHash (fun s => s) newSumHash).GetKey ([7] : GoString)
        (0 : Nat) (SyncPool.mk
          [(([] : List Byte), [HashOp.write [1], HashOp.sum [], HashOp.reset])]
          [⟨[], some 0⟩])).2.items =
        [([], [HashOp.write [1], HashOp.sum [], HashOp.reset,
          HashOp.write [7], HashOp.sum [], HashOp.reset])] :=
  ⟨by decide,
    (NewSourceHashKeyGenerator_pool_clean sumHash (fun s => s) newSumHash ([7] : GoString)
      (0 : Nat) (SyncPool.mk
        [(([] : List Byte), [HashOp.write [1], HashOp.sum [], HashOp.reset])]
        [⟨[], some 0⟩]) (by decide)).2.1,
    by decide⟩

end KeyGenerators

/-! ## Theorem on concurrent calls -/

section ConcurrentCalls

variable {H Src Par : Type}

/-- C14 (concurrent key derivation): any number of calls of `GetKey` run concurrently
on one new hash-based generator, over any sources, with a `Reset` that restores the
initial state. Under every interleaving of their statements and every behaviour of
the pool: a call that has been given its five steps has returned the key that a
single call on a new generator returns for its source; a call that has returned has
returned that key; and at the end of the interleaving, hence at every moment, no
accumulator is held by two calls, nor held by a call while stored in the pool. -/
theorem concurrent_GetKey (hash : Hash H) (Sprint : Src → GoString) (newHashFunc : Unit → H)
    (hReset : ∀ h, hash.Reset h = newHashFunc ()) (calls : List (Src × Par))
    (sched : List (Nat × PoolDecision)) :
    (∀ t source parameters, calls[t]? = some (source, parameters) → 5 ≤ stepsOf t sched →
        (concRun hash Sprint newHashFunc calls sched ConcState.init).pc t =
          Pc.done ((NewSourceHashKeyGenerator hash Sprint newHashFunc).GetKey source parameters
            (SyncPool.new [])).1) ∧
      (∀ t source parameters key, calls[t]? = some (source, parameters) →
        (concRun hash Sprint newHashFunc calls sched ConcState.init).pc t = Pc.done key →
          key = ((NewSourceHashKeyGenerator hash Sprint newHashFunc).GetKey source parameters
            (SyncPool.new [])).1) ∧
      (∀ t1 t2 id,
        ((concRun hash Sprint newHashFunc calls sched ConcState.init).pc t1).held = some id →
        ((concRun hash Sprint newHashFunc calls sched ConcState.init).pc t2).held = some id →
          t1 = t2) ∧
      (∀ t id,
        ((concRun hash Sprint newHashFunc calls sched ConcState.init).pc t).held = some id →
          id ∉ (concRun hash Sprint newHashFunc calls sched ConcState.init).pool) := by
  obtain ⟨hinv, hrank⟩ := concRun_inv_rank hash Sprint newHashFunc hReset calls sched
    ConcState.init (ConcInv_init hash Sprint newHashFunc calls)
  have href : ∀ (source : Src) (parameters : Par),
      ((NewSourceHashKeyGenerator hash Sprint newHashFunc).GetKey source parameters
        (SyncPool.new [])).1 = EncodeToString (freshDigest hash newHashFunc (Sprint source)) :=
    fun source parameters => GetKey_of_clean hash Sprint newHashFunc source parameters
      (SyncPool.new []) (by simp [SyncPool.new])
  have hdone : ∀ t source parameters key, calls[t]? = some (source, parameters) →
      (concRun hash Sprint newHashFunc calls sched ConcState.init).pc t = Pc.done key →
        key = ((NewSourceHashKeyGenerator hash Sprint newHashFunc).GetKey source parameters
          (SyncPool.new [])).1 := by
    intro t source parameters key hcall hpc
    have hok := hinv.pc_ok t source parameters hcall
    rw [hpc] at hok
    rw [href]
    exact hok
  refine ⟨?_, hdone, hinv.held_unique, hinv.held_not_pool⟩
  intro t source parameters hcall hsteps
  have hr := hrank t (by rw [hcall]; simp)
  have h5 : ((concRun hash Sprint newHashFunc calls sched ConcState.init).pc t).rank = 5 := by
    rw [hr]
    simp only [ConcState.init, Pc.rank]
    omega
  obtain ⟨key, hkey⟩ := Pc.done_of_rank _ h5
  rw [hkey, hdone t source parameters key hcall hkey]

/-- Witness of C14 on the toy hash: three calls, two of them for the same source,
their statements interleaved; the third call reuses an accumulator put back by the
first. All return the keys of the single-threaded calls. -/
theorem concurrent_GetKey_witness :
    (∀ h, sumHash.Reset h = newSumHash ()) ∧
      ((concRun sumHash (fun s => s) newSumHash
          [(([1, 2, 255] : GoString), (0 : Nat)), ([7], 1), ([1, 2, 255], 5)]
          [(0, ⟨[], none⟩), (1, ⟨[], none⟩), (0, ⟨[], none⟩), (1, ⟨[], none⟩), (0, ⟨[], none⟩),
            (0, ⟨[], none⟩), (0, ⟨[], none⟩), (2, ⟨[], some 0⟩), (1, ⟨[], none⟩),
            (2, ⟨[], none⟩), (2, ⟨[], none⟩), (1, ⟨[], none⟩), (1, ⟨[], none⟩),
            (2, ⟨[], none⟩), (2, ⟨[], none⟩)]
          ConcState.init).pc 2 =
        Pc.done ((NewSourceHashKeyGenerator sumHash (fun s => s) newSumHash).GetKey
          ([1, 2, 255] : GoString) (5 : Nat) (SyncPool.new [])).1) ∧
      ((concRun sumHash (fun s => s) newSumHash
          [(([1, 2, 255] : GoString), (0 : Nat)), ([7], 1), ([1, 2, 255], 5)]
          [(0, ⟨[], none⟩), (1, ⟨[], none⟩), (0, ⟨[], none⟩), (1, ⟨[], none⟩), (0, ⟨[], none⟩),
            (0, ⟨[], none⟩), (0, ⟨[], none⟩), (2, ⟨[], some 0⟩), (1, ⟨[], none⟩),
            (2, ⟨[], none⟩), (2, ⟨[], none⟩), (1, ⟨[], none⟩), (1, ⟨[], none⟩),
            (2, ⟨[], none⟩), (2, ⟨[], none⟩)]
          ConcState.init).pc 1 = Pc.done [48, 55]) :=
  ⟨fun _ => rfl,
    (concurrent_GetKey sumHash (fun s => s) newSumHash (fun _ => rfl)
      [(([1, 2, 255] : GoString), (0 : Nat)), ([7], 1), ([1, 2, 255], 5)]
      [(0, ⟨[], none⟩), (1, ⟨[], none⟩), (0, ⟨[], none⟩), (1, ⟨[], none⟩), (0, ⟨[], none⟩),
        (0, ⟨[], none⟩), (0, ⟨[], none⟩), (2, ⟨[], some 0⟩), (1, ⟨[], none⟩),
        (2, ⟨[], none⟩), (2, ⟨[], none⟩), (1, ⟨[], none⟩), (1, ⟨[], none⟩),
        (2, ⟨[], none⟩), (2, ⟨[], none⟩)]).1 2 [1, 2, 255] 5 (by decide) (by decide),
    by decide⟩

end ConcurrentCalls

end Cache
